import Mathlib

/-! protoc-gen-gotemplate: parameter parsing, generation dispatch, output
aggregation and custom-option resolution.

A shallow embedding of `helpers/parameters.go`, `helpers/generate.go`,
`helpers/custom_options.go` and `main.go`.

Conventions of the embedding:

* a Go `string` is a list of characters (`GoString`);
* operations of the Go standard library, of the protobuf runtime and of the
  template encoder are not part of these four files; the ones whose behaviour
  matters only through their result (`strings.ToLower`, the encoder's
  `Files()`, `proto.GetExtension`, the registry scan, the iteration order of a
  Go map) are arguments of the functions that call them, so every theorem
  holds for each behaviour they may have;
* `log.Printf` is modelled by returning the list of logged entries;
* an `error` result is an `Option Error`, `none` being `nil`.
-/

namespace Pgg

/-- A Go `string`. -/
abbrev GoString := List Char

deriving instance DecidableEq for Except

/-! ## `strings` -/

namespace strings

/-- `strings.Split(s, sep)` for a separator of one character, the only way the
source calls it (`","` and `"="`): the pieces of `s` between the occurrences
of `sep`, one more than there are occurrences. -/
def Split (s : GoString) (sep : Char) : List GoString :=
  match s with
  | [] => [[]]
  | c :: cs =>
    if c = sep then [] :: Split cs sep
    else
      match Split cs sep with
      | [] => [[c]]
      | p :: ps => (c :: p) :: ps

/-- `strings.ToLower` on the letters `A`..`Z`; other characters are kept.
Used only to instantiate the `ToLower` argument of `ParseParams` at concrete
inputs. -/
def ToLowerASCII (s : GoString) : GoString :=
  s.map fun c => if 'A' ≤ c ∧ c ≤ 'Z' then Char.ofNat (c.toNat + 32) else c

end strings

/-! ## `helpers/parameters.go` -/

/-- One call of `log.Printf(format, arg)`. -/
structure LogEntry where
  format : String
  arg : GoString
deriving DecidableEq, Repr

/-- `type Parameters struct`. -/
structure Parameters where
  TemplateDir : GoString := []
  DestinationDir : GoString := []
  Debug : Bool := false
  All : Bool := false
  SinglePackageMode : Bool := false
  FileMode : Bool := false
deriving DecidableEq, Repr

def boolTrue : GoString := "true".toList
def boolFalse : GoString := "false".toList

/-- The body of the `for _, param := range strings.Split(parameter, ",")` loop
of `ParseParams`: the parameters and the log after the token `param`. -/
def ParseParams.body (ToLower : GoString → GoString) (acc : Parameters × List LogEntry)
    (param : GoString) : Parameters × List LogEntry :=
  let params := acc.1
  let log := acc.2
  match strings.Split param '=' with
  | [key, value] =>
    if key = "template_dir".toList then
      ({ params with TemplateDir := value }, log)
    else if key = "destination_dir".toList then
      ({ params with DestinationDir := value }, log)
    else if key = "single-package-mode".toList then
      if ToLower value = boolTrue ∨ ToLower value = "t".toList then
        ({ params with SinglePackageMode := true }, log)
      else if ToLower value = boolFalse ∨ ToLower value = "f".toList then
        (params, log)
      else
        (params, log ++ [⟨"Err: invalid value for single-package-mode: %q", value⟩])
    else if key = "debug".toList then
      if ToLower value = boolTrue ∨ ToLower value = "t".toList then
        ({ params with Debug := true }, log)
      else if ToLower value = boolFalse ∨ ToLower value = "f".toList then
        (params, log)
      else
        (params, log ++ [⟨"Err: invalid value for debug: %q", value⟩])
    else if key = "all".toList then
      if ToLower value = boolTrue ∨ ToLower value = "t".toList then
        ({ params with All := true }, log)
      else if ToLower value = boolFalse ∨ ToLower value = "f".toList then
        (params, log)
      else
        (params, log ++ [⟨"Err: invalid value for debug: %q", value⟩])
    else if key = "file-mode".toList then
      if ToLower value = boolTrue ∨ ToLower value = "t".toList then
        ({ params with FileMode := true }, log)
      else if ToLower value = boolFalse ∨ ToLower value = "f".toList then
        (params, log)
      else
        (params, log ++ [⟨"Err: invalid value for file-mode: %q", value⟩])
    else
      (params, log ++ [⟨"Err: unknown parameter: %q", param⟩])
  | _ => (params, log ++ [⟨"Err: invalid parameter: %q", param⟩])

/-- `func ParseParams(parameter string) Parameters`, with the entries it logs. -/
def ParseParams (ToLower : GoString → GoString) (parameter : GoString) :
    Parameters × List LogEntry :=
  if parameter ≠ [] then
    (strings.Split parameter ',').foldl (ParseParams.body ToLower) ({}, [])
  else
    ({}, [])

/-! ## Descriptors and plugin data (`descriptorpb`, `pluginpb`, `protogen`) -/

/-- The dynamic value of a Go `interface{}`, by its dynamic type. A pointer is
`none` when it is nil. -/
inductive GoValue where
  | nil
  | bool (b : Bool)
  | int32 (i : Int)
  | int64 (i : Int)
  | uint32 (n : Nat)
  | uint64 (n : Nat)
  | string (s : GoString)
  | bytes (b : List Nat)
  | ptrBool (p : Option Bool)
  | ptrInt64 (p : Option Int)
  | ptrString (p : Option GoString)
  | other (goType : GoString)
deriving DecidableEq, Repr

/-- A `proto.Message` as `getExtension` sees it: the full name of its
descriptor and the fields it holds, by field number. -/
structure Message where
  FullName : GoString
  Fields : List (Int × GoValue)
deriving DecidableEq, Repr

/-- `descriptorpb.FileOptions`. -/
structure FileOptions where
  Fields : List (Int × GoValue)
deriving DecidableEq, Repr

/-- `descriptorpb.MessageOptions`. -/
structure MessageOptions where
  Fields : List (Int × GoValue)
deriving DecidableEq, Repr

/-- `descriptorpb.FieldOptions`. -/
structure FieldOptions where
  Fields : List (Int × GoValue)
deriving DecidableEq, Repr

/-- `descriptorpb.MethodOptions`. -/
structure MethodOptions where
  Fields : List (Int × GoValue)
deriving DecidableEq, Repr

/-- `(*descriptorpb.FileOptions).ProtoReflect().Descriptor().FullName()`. -/
def FileOptions.FullName : GoString := "google.protobuf.FileOptions".toList

/-- A `*descriptorpb.FileOptions` as a `proto.Message`. -/
def FileOptions.asMessage (o : FileOptions) : Message :=
  ⟨FileOptions.FullName, o.Fields⟩

/-- `(*descriptorpb.MessageOptions).ProtoReflect().Descriptor().FullName()`. -/
def MessageOptions.FullName : GoString := "google.protobuf.MessageOptions".toList

/-- A `*descriptorpb.MessageOptions` as a `proto.Message`. -/
def MessageOptions.asMessage (o : MessageOptions) : Message :=
  ⟨MessageOptions.FullName, o.Fields⟩

/-- `(*descriptorpb.FieldOptions).ProtoReflect().Descriptor().FullName()`. -/
def FieldOptions.FullName : GoString := "google.protobuf.FieldOptions".toList

/-- A `*descriptorpb.FieldOptions` as a `proto.Message`. -/
def FieldOptions.asMessage (o : FieldOptions) : Message :=
  ⟨FieldOptions.FullName, o.Fields⟩

/-- `(*descriptorpb.MethodOptions).ProtoReflect().Descriptor().FullName()`. -/
def MethodOptions.FullName : GoString := "google.protobuf.MethodOptions".toList

/-- A `*descriptorpb.MethodOptions` as a `proto.Message`. -/
def MethodOptions.asMessage (o : MethodOptions) : Message :=
  ⟨MethodOptions.FullName, o.Fields⟩

/-- `descriptorpb.MethodDescriptorProto`; `Options` is `none` when nil. -/
structure MethodDescriptorProto where
  Name : GoString
  Options : Option MethodOptions
deriving DecidableEq, Repr

/-- `descriptorpb.ServiceDescriptorProto`. -/
structure ServiceDescriptorProto where
  Name : GoString
  Method : List MethodDescriptorProto
deriving DecidableEq, Repr

/-- `descriptorpb.FieldDescriptorProto`; `Options` is `none` when nil. -/
structure FieldDescriptorProto where
  Name : GoString
  Options : Option FieldOptions
deriving DecidableEq, Repr

/-- `descriptorpb.DescriptorProto`; `Options` is `none` when nil. -/
structure DescriptorProto where
  Name : GoString
  Field : List FieldDescriptorProto
  Options : Option MessageOptions
deriving DecidableEq, Repr

/-- `descriptorpb.FileDescriptorProto`; `Options` is `none` when nil. -/
structure FileDescriptorProto where
  Name : GoString
  MessageType : List DescriptorProto
  Service : List ServiceDescriptorProto
  Options : Option FileOptions
deriving DecidableEq, Repr

/-- `pluginpb.CodeGeneratorResponse_File`, through `GetName()` and
`GetContent()`. -/
structure CodeGeneratorResponse_File where
  Name : GoString
  Content : GoString
deriving DecidableEq, Repr

/-- `protogen.File`: `Path` is `f.Desc.Path()`. -/
structure File where
  Path : GoString
  Proto : FileDescriptorProto
  GoImportPath : GoString
  Generate : Bool
deriving DecidableEq, Repr

/-- `protogen.GeneratedFile`. -/
structure GeneratedFile where
  filename : GoString
  goImportPath : GoString
  buf : GoString
deriving DecidableEq, Repr

/-- `protogen.Plugin`: `Parameter` is `gen.Request.GetParameter()`, `genFiles`
the files created by `NewGeneratedFile` so far. -/
structure Plugin where
  Parameter : GoString
  Files : List File
  SupportedFeatures : Nat
  genFiles : List GeneratedFile
deriving DecidableEq, Repr

/-- `g.Write(p)`. -/
def GeneratedFile.Write (g : GeneratedFile) (p : GoString) : GeneratedFile :=
  { g with buf := g.buf ++ p }

/-- `gen.NewGeneratedFile(filename, goImportPath)` followed by `g.Write(p)` on
the file it returns. -/
def Plugin.NewGeneratedFileWrite (gen : Plugin) (filename goImportPath p : GoString) : Plugin :=
  { gen with genFiles := gen.genFiles ++ [(GeneratedFile.mk filename goImportPath []).Write p] }

/-- The `error` values the source builds. -/
inductive Error where
  /-- `fmt.Errorf("extension %d not found", fieldID)`. -/
  | extensionNotFound (fieldID : Int)
  /-- `fmt.Errorf("%s: %w", path, err)`. -/
  | wrapPath (path : GoString) (err : Error)
deriving DecidableEq, Repr

/-! ## The template encoder -/

/-- An encoder as `GenerateFile` constructs it, with the arguments of the
constructor. -/
inductive Encoder where
  | NewGenericTemplateBasedEncoder (templateDir : GoString) (fd : FileDescriptorProto)
      (debug : Bool) (destinationDir : GoString)
  | NewGenericServiceTemplateBasedEncoder (templateDir : GoString)
      (service : ServiceDescriptorProto) (fd : FileDescriptorProto) (debug : Bool)
      (destinationDir : GoString)
deriving DecidableEq, Repr

/-- What `encoder.Files()` does: from the encoder and the state it runs in (the
templates on disk, ...) to the files it returns and the state it leaves. -/
abbrev EncoderFiles (σ : Type) := Encoder → σ → List CodeGeneratorResponse_File × σ

/-- The state a run of the plugin threads: the state of the encoder, every
encoder invocation so far with the files it returned, and the log. -/
structure World (σ : Type) where
  encoder : σ
  invocations : List (Encoder × List CodeGeneratorResponse_File)
  stderr : List LogEntry
deriving DecidableEq, Repr

/-- The call `encoder.Files()`, recorded in `invocations`. -/
def Encoder.Files {σ : Type} (files : EncoderFiles σ) (e : Encoder) (w : World σ) :
    List CodeGeneratorResponse_File × World σ :=
  let r := files e w.encoder
  (r.1, { w with encoder := r.2, invocations := w.invocations ++ [(e, r.1)] })

/-! ## `helpers/generate.go` -/

/-- The `for _, service := range fd.Service` loop of `GenerateFile`. -/
def GenerateFile.services {σ : Type} (files : EncoderFiles σ) (params : Parameters)
    (fd : FileDescriptorProto) :
    List ServiceDescriptorProto → List CodeGeneratorResponse_File → World σ →
      List CodeGeneratorResponse_File × World σ
  | [], filesToGenerate, w => (filesToGenerate, w)
  | service :: rest, filesToGenerate, w =>
    let r := (Encoder.NewGenericServiceTemplateBasedEncoder params.TemplateDir service fd
      params.Debug params.DestinationDir).Files files w
    GenerateFile.services files params fd rest (filesToGenerate ++ r.1) r.2

/-- `func GenerateFile(gen, file) ([]*pluginpb.CodeGeneratorResponse_File, error)`.
The block of `if params.Debug` is empty in the source. -/
def GenerateFile {σ : Type} (ToLower : GoString → GoString) (files : EncoderFiles σ)
    (gen : Plugin) (file : File) (w : World σ) :
    (List CodeGeneratorResponse_File × Option Error) × World σ :=
  let parsed := ParseParams ToLower gen.Parameter
  let params := parsed.1
  let w := { w with stderr := w.stderr ++ parsed.2 }
  let fd := file.Proto
  let filesToGenerate : List CodeGeneratorResponse_File := []
  if params.All then
    let r := (Encoder.NewGenericTemplateBasedEncoder params.TemplateDir fd params.Debug
      params.DestinationDir).Files files w
    ((filesToGenerate ++ r.1, none), r.2)
  else if params.FileMode then
    if fd.Service.length > 0 then
      let r := (Encoder.NewGenericTemplateBasedEncoder params.TemplateDir fd params.Debug
        params.DestinationDir).Files files w
      ((filesToGenerate ++ r.1, none), r.2)
    else
      ((filesToGenerate, none), w)
  else
    let r := GenerateFile.services files params fd fd.Service filesToGenerate w
    ((r.1, none), r.2)

/-! ## `main.go` -/

/-- A Go `map`: the entries, each key once. -/
abbrev GoMap (K V : Type) := List (K × V)

/-- `v, ok := m[k]`. -/
def GoMap.get? {K V : Type} [DecidableEq K] : GoMap K V → K → Option V
  | [], _ => none
  | (k1, v1) :: m, k => if k1 = k then some v1 else GoMap.get? m k

/-- `m[k] = v`. -/
def GoMap.set {K V : Type} [DecidableEq K] : GoMap K V → K → V → GoMap K V
  | [], k, v => [(k, v)]
  | (k1, v1) :: m, k, v => if k1 = k then (k, v) :: m else (k1, v1) :: GoMap.set m k v

/-- The two maps of `main`. -/
structure Generated where
  generatedFiles : GoMap GoString GoString
  generatedImports : GoMap GoString GoString
deriving DecidableEq, Repr

/-- The `for _, file := range files` loop of `main`, for the input file `f`. -/
def main.merge (f : File) : Generated → List CodeGeneratorResponse_File → Generated
  | g, [] => g
  | g, file :: files =>
    let name := file.Name
    match g.generatedFiles.get? name with
    | some content =>
      main.merge f { g with generatedFiles := g.generatedFiles.set name (content ++ file.Content) }
        files
    | none =>
      main.merge f
        { generatedFiles := g.generatedFiles.set name file.Content,
          generatedImports := g.generatedImports.set name f.GoImportPath } files

/-- The `for _, f := range gen.Files` loop of `main`: the two maps when the
loop ends, or the error it returns. -/
def main.loop {σ : Type} (ToLower : GoString → GoString) (files : EncoderFiles σ)
    (gen : Plugin) : List File → Generated → World σ → Except Error Generated × World σ
  | [], g, w => (.ok g, w)
  | f :: rest, g, w =>
    if !f.Generate then
      main.loop ToLower files gen rest g w
    else
      let r := GenerateFile ToLower files gen f w
      match r.1.2 with
      | some err => (.error (Error.wrapPath f.Path err), r.2)
      | none => main.loop ToLower files gen rest (main.merge f g r.1.1) r.2

/-- The `for name, content := range generatedFiles` loop of `main`, over the
entries in the order the `range` visits them. -/
def main.write (generatedImports : GoMap GoString GoString) :
    List (GoString × GoString) → Plugin → Plugin
  | [], gen => gen
  | (name, content) :: rest, gen =>
    main.write generatedImports rest
      (gen.NewGeneratedFileWrite name ((generatedImports.get? name).getD []) content)

/-- `pluginpb.CodeGeneratorResponse_FEATURE_PROTO3_OPTIONAL`. -/
def FEATURE_PROTO3_OPTIONAL : Nat := 1

/-- The function `main` passes to `protogen.Options{}.Run`: the error it
returns and the plugin it leaves. `range` is the order in which a `range`
over a map visits its entries, which Go leaves unspecified. -/
def main {σ : Type} (ToLower : GoString → GoString) (files : EncoderFiles σ)
    (range : GoMap GoString GoString → List (GoString × GoString))
    (gen : Plugin) (w : World σ) : (Option Error × Plugin) × World σ :=
  let gen := { gen with SupportedFeatures := FEATURE_PROTO3_OPTIONAL }
  let r := main.loop ToLower files gen gen.Files ⟨[], []⟩ w
  match r.1 with
  | .error err => ((some err, gen), r.2)
  | .ok g => ((none, main.write g.generatedImports (range g.generatedFiles) gen), r.2)

/-- The `for _, f := range gen.Files` loop of `main` with the call
`pgghelpers.GenerateFile(gen, f)` as the argument `generateFile`: what the loop
does with whatever the callee returns. -/
def main.loopWith {σ : Type}
    (generateFile : File → World σ → (List CodeGeneratorResponse_File × Option Error) × World σ) :
    List File → Generated → World σ → Except Error Generated × World σ
  | [], g, w => (.ok g, w)
  | f :: rest, g, w =>
    if !f.Generate then
      main.loopWith generateFile rest g w
    else
      let r := generateFile f w
      match r.1.2 with
      | some err => (.error (Error.wrapPath f.Path err), r.2)
      | none => main.loopWith generateFile rest (main.merge f g r.1.1) r.2

/-- The function `main` passes to `protogen.Options{}.Run`, with the callee
`pgghelpers.GenerateFile` as the argument `generateFile`. -/
def mainWith {σ : Type}
    (generateFile : Plugin → File → World σ →
      (List CodeGeneratorResponse_File × Option Error) × World σ)
    (range : GoMap GoString GoString → List (GoString × GoString))
    (gen : Plugin) (w : World σ) : (Option Error × Plugin) × World σ :=
  let gen := { gen with SupportedFeatures := FEATURE_PROTO3_OPTIONAL }
  let r := main.loopWith (generateFile gen) gen.Files ⟨[], []⟩ w
  match r.1 with
  | .error err => ((some err, gen), r.2)
  | .ok g => ((none, main.write g.generatedImports (range g.generatedFiles) gen), r.2)

/-! ## `helpers/custom_options.go` -/

/-- `protoreflect.ExtensionType`: the full name and the field number of its
descriptor. -/
structure ExtensionType where
  FullName : GoString
  Number : Int
deriving DecidableEq, Repr

/-- The protobuf runtime `getExtension` calls.
`RangeExtensionsByMessage name` is the extensions that
`protoregistry.GlobalTypes.RangeExtensionsByMessage(name, ...)` visits, in the
order it visits them; `GetExtension` is `proto.GetExtension`. -/
structure Runtime where
  RangeExtensionsByMessage : GoString → List ExtensionType
  GetExtension : Message → ExtensionType → GoValue

/-- The static types of the nil pointers the accessors hand to
`getExtension`. -/
inductive GoType where
  | ptrFileOptions
  | ptrMessageOptions
  | ptrFieldOptions
  | ptrMethodOptions
  | ptrString
  | ptrBool
  | ptrInt64
deriving DecidableEq, Repr

/-- A run-time panic. -/
inductive Panic where
  | nilDereference
deriving DecidableEq, Repr

/-- `func getExtension(extendedMessage, extendedType proto.Message, fieldID int32,
fieldType interface{}) (interface{}, error)`. The callback of the range stops
at the first extension whose number is `fieldID`. The mutex held during the
call has no effect on a sequential run. -/
def getExtension (rt : Runtime) (extendedMessage : Message) (_extendedType : GoType)
    (fieldID : Int) (_fieldType : GoType) : Except Error GoValue :=
  let extensionType :=
    (rt.RangeExtensionsByMessage extendedMessage.FullName).find? fun xt => xt.Number = fieldID
  match extensionType with
  | none => .error (Error.extensionNotFound fieldID)
  | some xt => .ok (rt.GetExtension extendedMessage xt)

/-- `func stringMethodOptionsExtension(fieldID int32, f *descriptorpb.MethodDescriptorProto) string`;
`f` is `none` when nil. -/
def stringMethodOptionsExtension (rt : Runtime) (fieldID : Int) (f : Option MethodDescriptorProto) :
    Except Panic GoString :=
  match f with
  | none => .ok []
  | some f =>
    match f.Options with
    | none => .ok []
    | some options =>
      match getExtension rt options.asMessage GoType.ptrMethodOptions fieldID GoType.ptrString with
      | .error _ => .ok []
      | .ok ext =>
        match ext with
        | GoValue.ptrString (some v) => .ok v
        | GoValue.ptrString none => .error Panic.nilDereference
        | _ => .ok []

/-- `func boolMethodOptionsExtension(fieldID int32, f *descriptorpb.MethodDescriptorProto) bool`;
`f` is `none` when nil. -/
def boolMethodOptionsExtension (rt : Runtime) (fieldID : Int) (f : Option MethodDescriptorProto) :
    Except Panic Bool :=
  match f with
  | none => .ok false
  | some f =>
    match f.Options with
    | none => .ok false
    | some options =>
      match getExtension rt options.asMessage GoType.ptrMethodOptions fieldID GoType.ptrBool with
      | .error _ => .ok false
      | .ok ext =>
        match ext with
        | GoValue.ptrBool (some v) => .ok v
        | GoValue.ptrBool none => .error Panic.nilDereference
        | _ => .ok false

/-- `func stringFileOptionsExtension(fieldID int32, f *descriptorpb.FileDescriptorProto) string`;
`f` is `none` when nil. -/
def stringFileOptionsExtension (rt : Runtime) (fieldID : Int) (f : Option FileDescriptorProto) :
    Except Panic GoString :=
  match f with
  | none => .ok []
  | some f =>
    match f.Options with
    | none => .ok []
    | some options =>
      match getExtension rt options.asMessage GoType.ptrFileOptions fieldID GoType.ptrString with
      | .error _ => .ok []
      | .ok ext =>
        match ext with
        | GoValue.ptrString (some v) => .ok v
        | GoValue.ptrString none => .error Panic.nilDereference
        | _ => .ok []

/-- `func stringFieldExtension(fieldID int32, f *descriptorpb.FieldDescriptorProto) string`;
`f` is `none` when nil. -/
def stringFieldExtension (rt : Runtime) (fieldID : Int) (f : Option FieldDescriptorProto) :
    Except Panic GoString :=
  match f with
  | none => .ok []
  | some f =>
    match f.Options with
    | none => .ok []
    | some options =>
      match getExtension rt options.asMessage GoType.ptrFieldOptions fieldID GoType.ptrString with
      | .error _ => .ok []
      | .ok ext =>
        match ext with
        | GoValue.ptrString (some v) => .ok v
        | GoValue.ptrString none => .error Panic.nilDereference
        | _ => .ok []

/-- `func int64FieldExtension(fieldID int32, f *descriptorpb.FieldDescriptorProto) int64`;
`f` is `none` when nil. -/
def int64FieldExtension (rt : Runtime) (fieldID : Int) (f : Option FieldDescriptorProto) :
    Except Panic Int :=
  match f with
  | none => .ok 0
  | some f =>
    match f.Options with
    | none => .ok 0
    | some options =>
      match getExtension rt options.asMessage GoType.ptrFieldOptions fieldID GoType.ptrInt64 with
      | .error _ => .ok 0
      | .ok ext =>
        match ext with
        | GoValue.ptrInt64 (some v) => .ok v
        | GoValue.ptrInt64 none => .error Panic.nilDereference
        | _ => .ok 0

/-- `func int64MessageExtension(fieldID int32, f *descriptorpb.DescriptorProto) int64`;
`f` is `none` when nil. -/
def int64MessageExtension (rt : Runtime) (fieldID : Int) (f : Option DescriptorProto) :
    Except Panic Int :=
  match f with
  | none => .ok 0
  | some f =>
    match f.Options with
    | none => .ok 0
    | some options =>
      match getExtension rt options.asMessage GoType.ptrMessageOptions fieldID GoType.ptrInt64 with
      | .error _ => .ok 0
      | .ok ext =>
        match ext with
        | GoValue.ptrInt64 (some v) => .ok v
        | GoValue.ptrInt64 none => .error Panic.nilDereference
        | _ => .ok 0

/-- `func stringMessageExtension(fieldID int32, f *descriptorpb.DescriptorProto) string`;
`f` is `none` when nil. -/
def stringMessageExtension (rt : Runtime) (fieldID : Int) (f : Option DescriptorProto) :
    Except Panic GoString :=
  match f with
  | none => .ok []
  | some f =>
    match f.Options with
    | none => .ok []
    | some options =>
      match getExtension rt options.asMessage GoType.ptrMessageOptions fieldID GoType.ptrString with
      | .error _ => .ok []
      | .ok ext =>
        match ext with
        | GoValue.ptrString (some v) => .ok v
        | GoValue.ptrString none => .error Panic.nilDereference
        | _ => .ok []

/-- `func boolFieldExtension(fieldID int32, f *descriptorpb.FieldDescriptorProto) bool`;
`f` is `none` when nil. -/
def boolFieldExtension (rt : Runtime) (fieldID : Int) (f : Option FieldDescriptorProto) :
    Except Panic Bool :=
  match f with
  | none => .ok false
  | some f =>
    match f.Options with
    | none => .ok false
    | some options =>
      match getExtension rt options.asMessage GoType.ptrFieldOptions fieldID GoType.ptrBool with
      | .error _ => .ok false
      | .ok ext =>
        match ext with
        | GoValue.ptrBool (some v) => .ok v
        | GoValue.ptrBool none => .error Panic.nilDereference
        | _ => .ok false

/-- `func boolMessageExtension(fieldID int32, f *descriptorpb.DescriptorProto) bool`;
`f` is `none` when nil. -/
def boolMessageExtension (rt : Runtime) (fieldID : Int) (f : Option DescriptorProto) :
    Except Panic Bool :=
  match f with
  | none => .ok false
  | some f =>
    match f.Options with
    | none => .ok false
    | some options =>
      match getExtension rt options.asMessage GoType.ptrMessageOptions fieldID GoType.ptrBool with
      | .error _ => .ok false
      | .ok ext =>
        match ext with
        | GoValue.ptrBool (some v) => .ok v
        | GoValue.ptrBool none => .error Panic.nilDereference
        | _ => .ok false

/-! ## Notions the statements use -/

/-- Some extension with field number `n` is registered against the message
type `typeName`. -/
def Runtime.registered (rt : Runtime) (typeName : GoString) (n : Int) : Prop :=
  ∃ xt ∈ rt.RangeExtensionsByMessage typeName, xt.Number = n

instance (rt : Runtime) (typeName : GoString) (n : Int) : Decidable (rt.registered typeName n) := by
  unfold Runtime.registered
  infer_instance

/-- The three cases in which a typed accessor `acc` answers its zero value:
a nil descriptor, nil options, and a resolved value `v` that is not of the
requested type. `opts` reads the options of a descriptor, `resolve` is the call
of `getExtension` the accessor makes on them. -/
def ZeroOnAbsent {D O T : Type} (acc : Option D → Except Panic T) (opts : D → Option O)
    (resolve : O → Except Error GoValue) (requested : GoValue → Bool) (zero : T) : Prop :=
  acc none = .ok zero ∧
  (∀ d, opts d = none → acc (some d) = .ok zero) ∧
  (∀ d o v, opts d = some o → resolve o = .ok v → requested v = false → acc (some d) = .ok zero)

/-- The value `v` has the dynamic type `*string`. -/
def GoValue.isPtrString : GoValue → Bool
  | GoValue.ptrString _ => true
  | _ => false

/-- The value `v` has the dynamic type `*bool`. -/
def GoValue.isPtrBool : GoValue → Bool
  | GoValue.ptrBool _ => true
  | _ => false

/-- The value `v` has the dynamic type `*int64`. -/
def GoValue.isPtrInt64 : GoValue → Bool
  | GoValue.ptrInt64 _ => true
  | _ => false

/-- A runtime with one extension, number 50001, registered against
`google.protobuf.MethodOptions`; `proto.GetExtension` returns the field the
message holds under the extension's number as a Go `string`, `""` when it
holds none. -/
def exampleRuntime : Runtime where
  RangeExtensionsByMessage := fun name =>
    if name = MethodOptions.FullName then [⟨"example.tag".toList, 50001⟩] else []
  GetExtension := fun m xt =>
    match m.Fields.find? fun p => p.1 = xt.Number with
    | some p => p.2
    | none => GoValue.string []

/-- The encoder `GenerateFile` constructs for the whole file `fd`. -/
def wholeFileEncoder (params : Parameters) (fd : FileDescriptorProto) : Encoder :=
  Encoder.NewGenericTemplateBasedEncoder params.TemplateDir fd params.Debug params.DestinationDir

/-- The encoder `GenerateFile` constructs for `service` and the file `fd` that
declares it. -/
def serviceEncoder (params : Parameters) (fd : FileDescriptorProto)
    (service : ServiceDescriptorProto) : Encoder :=
  Encoder.NewGenericServiceTemplateBasedEncoder params.TemplateDir service fd params.Debug
    params.DestinationDir

/-- An encoder that returns one file, named after the scope it is given, and
counts its invocations. -/
def exampleFiles : EncoderFiles Nat := fun e k =>
  match e with
  | Encoder.NewGenericTemplateBasedEncoder _ fd _ _ =>
    ([⟨fd.Name ++ ".out".toList, "file;".toList⟩], k + 1)
  | Encoder.NewGenericServiceTemplateBasedEncoder _ service _ _ _ =>
    ([⟨service.Name ++ ".out".toList, "service;".toList⟩], k + 1)

/-- An input file declaring no service. -/
def exampleFile0 : File :=
  ⟨"a.proto".toList, ⟨"a".toList, [], [], none⟩, "example.com/a".toList, true⟩

/-- An input file declaring the services `S1` and `S2`. -/
def exampleFile2 : File :=
  ⟨"b.proto".toList, ⟨"b".toList, [], [⟨"S1".toList, []⟩, ⟨"S2".toList, []⟩], none⟩,
    "example.com/b".toList, true⟩

/-- A plugin request with the parameter string `parameter` and the two example
files. -/
def examplePlugin (parameter : String) : Plugin :=
  ⟨parameter.toList, [exampleFile0, exampleFile2], 0, []⟩

/-- An encoder that returns one file, always named `index`, whose content is
the name of the scope it is given. -/
def indexFiles : EncoderFiles Nat := fun e k =>
  match e with
  | Encoder.NewGenericTemplateBasedEncoder _ fd _ _ =>
    ([⟨"index".toList, fd.Name ++ ";".toList⟩], k + 1)
  | Encoder.NewGenericServiceTemplateBasedEncoder _ service _ _ _ =>
    ([⟨"index".toList, service.Name ++ ";".toList⟩], k + 1)

/-- The world before the first encoder invocation. -/
def exampleWorld : World Nat := ⟨0, [], []⟩

/-- The keys `ParseParams` recognises. -/
def knownKeys : List GoString :=
  ["template_dir".toList, "destination_dir".toList, "single-package-mode".toList,
    "debug".toList, "all".toList, "file-mode".toList]

/-- The keys of the boolean flags. -/
def boolKeys : List GoString :=
  ["single-package-mode".toList, "debug".toList, "all".toList, "file-mode".toList]

/-- A well-formed token: `key=value` with exactly one `=` and no `,`, a
recognised key, and a valid value, which for a boolean key is one whose
lower-cased form is `true`, `t`, `false` or `f`. -/
def WellFormedToken (ToLower : GoString → GoString) (tok : GoString) : Prop :=
  ∃ key value, tok = key ++ '=' :: value ∧ '=' ∉ key ∧ '=' ∉ value ∧ ',' ∉ tok ∧
    (key = "template_dir".toList ∨ key = "destination_dir".toList ∨
      (key ∈ boolKeys ∧
        ToLower value ∈ ["true".toList, "t".toList, "false".toList, "f".toList]))

/-- A bad token: a token (no `,` in it) that does not contain exactly one `=`,
or that is `key=value` with a key `ParseParams` does not recognise. -/
def BadToken (tok : GoString) : Prop :=
  ',' ∉ tok ∧
    (tok.count '=' ≠ 1 ∨
      ∃ key value, tok = key ++ '=' :: value ∧ '=' ∉ key ∧ '=' ∉ value ∧ key ∉ knownKeys)

/-- The parameter string made of the tokens `toks`: `strings.Join(toks, ",")`. -/
def joinTokens : List GoString → GoString
  | [] => []
  | [t] => t
  | t :: ts => t ++ ',' :: joinTokens ts

/-- The fragments `GenerateFile` returns for the input files flagged for
generation, in encounter order (file order, then the order within a file), each
with the `GoImportPath` of the input file it was produced for. -/
def producedFragments {σ : Type} (ToLower : GoString → GoString) (files : EncoderFiles σ)
    (gen : Plugin) : List File → World σ → List (GoString × CodeGeneratorResponse_File)
  | [], _ => []
  | f :: rest, w =>
    if f.Generate then
      (GenerateFile ToLower files gen f w).1.1.map (fun x => (f.GoImportPath, x)) ++
        producedFragments ToLower files gen rest (GenerateFile ToLower files gen f w).2
    else
      producedFragments ToLower files gen rest w

/-- The fragments named `D` among `frs`, in order. -/
def fragmentsNamed (D : GoString) (frs : List (GoString × CodeGeneratorResponse_File)) :
    List (GoString × CodeGeneratorResponse_File) :=
  frs.filter fun x => x.2.Name = D

/-- The concatenation of the contents of the fragments named `D`. -/
def contentFor (D : GoString) (frs : List (GoString × CodeGeneratorResponse_File)) : GoString :=
  ((fragmentsNamed D frs).map fun x => x.2.Content).flatten

/-- The import path of the input file that produced the first fragment named
`D`, when there is one. -/
def importFor (D : GoString) (frs : List (GoString × CodeGeneratorResponse_File)) :
    Option GoString :=
  (fragmentsNamed D frs).head?.map fun x => x.1

/-- One turn of the `for _, file := range files` loop of `main`, for the
fragment `x.2` of an input file whose import path is `x.1`. -/
def mergeOne (g : Generated) (x : GoString × CodeGeneratorResponse_File) : Generated :=
  match g.generatedFiles.get? x.2.Name with
  | some content =>
    { g with generatedFiles := g.generatedFiles.set x.2.Name (content ++ x.2.Content) }
  | none =>
    { generatedFiles := g.generatedFiles.set x.2.Name x.2.Content,
      generatedImports := g.generatedImports.set x.2.Name x.1 }

/-- The two maps of `main` hold what the fragments `l` seen so far require. -/
structure Aggregated (g : Generated) (l : List (GoString × CodeGeneratorResponse_File)) :
    Prop where
  nodup : (g.generatedFiles.map Prod.fst).Nodup
  content : ∀ D, g.generatedFiles.get? D =
    if D ∈ l.map (fun x => x.2.Name) then some (contentFor D l) else none
  imports : ∀ D, g.generatedImports.get? D = importFor D l

/-- A call of `ParseParams` in the world `w`: the parameters it returns, and
the world with the entries it logs added to the log. -/
def ParseParams.logged {σ : Type} (ToLower : GoString → GoString) (parameter : GoString)
    (w : World σ) : Parameters × World σ :=
  ((ParseParams ToLower parameter).1,
    { w with stderr := w.stderr ++ (ParseParams ToLower parameter).2 })

/-- An encoder whose rendering fails: `Files()` has no error result, so it
returns no file and leaves the failure in its state. -/
def failingFiles : EncoderFiles (Option GoString) := fun _ _ =>
  ([], some "render error".toList)

/-- A callee of `main` that returns an error for the input file `b.proto` and
does what `GenerateFile` does, with the encoder `indexFiles`, for the others. -/
def failingGenerateFile (gen : Plugin) (file : File) (w : World Nat) :
    (List CodeGeneratorResponse_File × Option Error) × World Nat :=
  if file.Path = "b.proto".toList then
    (([], some (Error.extensionNotFound 0)), w)
  else
    GenerateFile strings.ToLowerASCII indexFiles gen file w

/-! ## Theorems -/

/-! ### `getExtension` and the typed accessors -/

theorem getExtension_of_find_none (rt : Runtime) (m : Message) (t1 t2 : GoType) (n : Int)
    (h : (rt.RangeExtensionsByMessage m.FullName).find? (fun xt => xt.Number = n) = none) :
    getExtension rt m t1 n t2 = .error (Error.extensionNotFound n) := by
  simp [getExtension, h]

theorem find_none_of_not_registered (rt : Runtime) (name : GoString) (n : Int)
    (h : ¬ rt.registered name n) :
    (rt.RangeExtensionsByMessage name).find? (fun xt => xt.Number = n) = none := by
  rw [List.find?_eq_none]
  intro xt hxt hn
  exact h ⟨xt, hxt, by simpa using hn⟩

theorem getExtension_of_not_registered (rt : Runtime) (m : Message) (t1 t2 : GoType) (n : Int)
    (h : ¬ rt.registered m.FullName n) :
    getExtension rt m t1 n t2 = .error (Error.extensionNotFound n) :=
  getExtension_of_find_none rt m t1 t2 n (find_none_of_not_registered rt m.FullName n h)

theorem getExtension_of_registered (rt : Runtime) (m : Message) (t1 t2 : GoType) (n : Int)
    (h : rt.registered m.FullName n) :
    ∃ xt ∈ rt.RangeExtensionsByMessage m.FullName,
      xt.Number = n ∧ getExtension rt m t1 n t2 = .ok (rt.GetExtension m xt) := by
  obtain ⟨x, hx, hxn⟩ := h
  cases hf : (rt.RangeExtensionsByMessage m.FullName).find? (fun xt => xt.Number = n) with
  | none =>
    rw [List.find?_eq_none] at hf
    exact absurd (by simpa using hxn) (hf x hx)
  | some xt =>
    refine ⟨xt, List.mem_of_find?_eq_some hf, ?_, ?_⟩
    · simpa using List.find?_some hf
    · simp [getExtension, hf]

/-- C10: for every options message, registry and field number `n`,
`getExtension` returns, with a nil error, the value `proto.GetExtension` decodes
for an extension with number `n` registered against the message's type when
there is one, returns the error "extension n not found" when there is none, and
so fails if and only if no such extension is registered. -/
theorem getExtension_contract (rt : Runtime) (m : Message) (t1 t2 : GoType) (n : Int) :
    (rt.registered m.FullName n →
      ∃ xt ∈ rt.RangeExtensionsByMessage m.FullName,
        xt.Number = n ∧ getExtension rt m t1 n t2 = .ok (rt.GetExtension m xt)) ∧
    (¬ rt.registered m.FullName n →
      getExtension rt m t1 n t2 = .error (Error.extensionNotFound n)) ∧
    ((∃ e, getExtension rt m t1 n t2 = .error e) ↔ ¬ rt.registered m.FullName n) := by
  refine ⟨getExtension_of_registered rt m t1 t2 n,
    getExtension_of_not_registered rt m t1 t2 n, ?_, ?_⟩
  · rintro ⟨e, he⟩ hreg
    obtain ⟨xt, -, -, hok⟩ := getExtension_of_registered rt m t1 t2 n hreg
    rw [hok] at he
    cases he
  · intro h
    exact ⟨_, getExtension_of_not_registered rt m t1 t2 n h⟩

/-- C10 at the example runtime: number 50001 is registered against
`MethodOptions` and resolves, number 50002 is not and fails. -/
theorem getExtension_contract_witness :
    (exampleRuntime.registered MethodOptions.FullName 50001 ∧
      ∃ xt ∈ exampleRuntime.RangeExtensionsByMessage MethodOptions.FullName,
        xt.Number = 50001 ∧
        getExtension exampleRuntime ⟨MethodOptions.FullName, [(50001, GoValue.string "v".toList)]⟩
          GoType.ptrMethodOptions 50001 GoType.ptrString =
          .ok (exampleRuntime.GetExtension
            ⟨MethodOptions.FullName, [(50001, GoValue.string "v".toList)]⟩ xt)) ∧
    (¬ exampleRuntime.registered MethodOptions.FullName 50002 ∧
      getExtension exampleRuntime ⟨MethodOptions.FullName, [(50001, GoValue.string "v".toList)]⟩
        GoType.ptrMethodOptions 50002 GoType.ptrString = .error (Error.extensionNotFound 50002)) :=
  ⟨⟨by decide,
    (getExtension_contract exampleRuntime
      ⟨MethodOptions.FullName, [(50001, GoValue.string "v".toList)]⟩
      GoType.ptrMethodOptions GoType.ptrString 50001).1 (by decide)⟩,
   ⟨by decide,
    (getExtension_contract exampleRuntime
      ⟨MethodOptions.FullName, [(50001, GoValue.string "v".toList)]⟩
      GoType.ptrMethodOptions GoType.ptrString 50002).2.1 (by decide)⟩⟩

/-- C8: for every registry, every field number `n` that no extension registered
against the owning options type carries, and every descriptor whose options are
not nil, each of the nine typed accessors returns the zero value of its type
(`""`, `false`, `0`) and does not panic. -/
theorem accessors_unregistered_zero (rt : Runtime) (n : Int) :
    (¬ rt.registered MethodOptions.FullName n →
      ∀ d : MethodDescriptorProto, d.Options ≠ none →
        stringMethodOptionsExtension rt n (some d) = .ok [] ∧
        boolMethodOptionsExtension rt n (some d) = .ok false) ∧
    (¬ rt.registered FileOptions.FullName n →
      ∀ d : FileDescriptorProto, d.Options ≠ none →
        stringFileOptionsExtension rt n (some d) = .ok []) ∧
    (¬ rt.registered FieldOptions.FullName n →
      ∀ d : FieldDescriptorProto, d.Options ≠ none →
        stringFieldExtension rt n (some d) = .ok [] ∧
        int64FieldExtension rt n (some d) = .ok 0 ∧
        boolFieldExtension rt n (some d) = .ok false) ∧
    (¬ rt.registered MessageOptions.FullName n →
      ∀ d : DescriptorProto, d.Options ≠ none →
        int64MessageExtension rt n (some d) = .ok 0 ∧
        stringMessageExtension rt n (some d) = .ok [] ∧
        boolMessageExtension rt n (some d) = .ok false) := by
  refine ⟨?_, ?_, ?_, ?_⟩ <;> intro hn d hd <;>
    cases ho : d.Options with
    | none => exact absurd ho hd
    | some o =>
      have h := fun t1 t2 => getExtension_of_not_registered rt o.asMessage t1 t2 n hn
      simp [stringMethodOptionsExtension, boolMethodOptionsExtension,
        stringFileOptionsExtension, stringFieldExtension, int64FieldExtension,
        boolFieldExtension, int64MessageExtension, stringMessageExtension,
        boolMessageExtension, ho, h]

/-- C8 at the example runtime: number 50002 is registered against no options
type, and the accessors answer zero values on descriptors with options. -/
theorem accessors_unregistered_zero_witness :
    ¬ exampleRuntime.registered MethodOptions.FullName 50002 ∧
    (⟨"Get".toList, some ⟨[(50001, GoValue.string "v".toList)]⟩⟩ : MethodDescriptorProto).Options
      ≠ none ∧
    stringMethodOptionsExtension exampleRuntime 50002
      (some ⟨"Get".toList, some ⟨[(50001, GoValue.string "v".toList)]⟩⟩) = .ok [] ∧
    boolMethodOptionsExtension exampleRuntime 50002
      (some ⟨"Get".toList, some ⟨[(50001, GoValue.string "v".toList)]⟩⟩) = .ok false :=
  ⟨by decide, by decide,
    (accessors_unregistered_zero exampleRuntime 50002).1 (by decide)
      ⟨"Get".toList, some ⟨[(50001, GoValue.string "v".toList)]⟩⟩ (by decide)⟩

/-- C9: every typed accessor, for every field number, returns the zero value of
its type (`""`, `false`, `0`) and does not panic when the descriptor is nil,
when its options are nil, and when the value `getExtension` resolves is not of
the type the accessor asserts. -/
theorem accessors_absent_zero (rt : Runtime) (n : Int) :
    ZeroOnAbsent (stringMethodOptionsExtension rt n) MethodDescriptorProto.Options
      (fun o => getExtension rt o.asMessage GoType.ptrMethodOptions n GoType.ptrString)
      GoValue.isPtrString [] ∧
    ZeroOnAbsent (boolMethodOptionsExtension rt n) MethodDescriptorProto.Options
      (fun o => getExtension rt o.asMessage GoType.ptrMethodOptions n GoType.ptrBool)
      GoValue.isPtrBool false ∧
    ZeroOnAbsent (stringFileOptionsExtension rt n) FileDescriptorProto.Options
      (fun o => getExtension rt o.asMessage GoType.ptrFileOptions n GoType.ptrString)
      GoValue.isPtrString [] ∧
    ZeroOnAbsent (stringFieldExtension rt n) FieldDescriptorProto.Options
      (fun o => getExtension rt o.asMessage GoType.ptrFieldOptions n GoType.ptrString)
      GoValue.isPtrString [] ∧
    ZeroOnAbsent (int64FieldExtension rt n) FieldDescriptorProto.Options
      (fun o => getExtension rt o.asMessage GoType.ptrFieldOptions n GoType.ptrInt64)
      GoValue.isPtrInt64 0 ∧
    ZeroOnAbsent (int64MessageExtension rt n) DescriptorProto.Options
      (fun o => getExtension rt o.asMessage GoType.ptrMessageOptions n GoType.ptrInt64)
      GoValue.isPtrInt64 0 ∧
    ZeroOnAbsent (stringMessageExtension rt n) DescriptorProto.Options
      (fun o => getExtension rt o.asMessage GoType.ptrMessageOptions n GoType.ptrString)
      GoValue.isPtrString [] ∧
    ZeroOnAbsent (boolFieldExtension rt n) FieldDescriptorProto.Options
      (fun o => getExtension rt o.asMessage GoType.ptrFieldOptions n GoType.ptrBool)
      GoValue.isPtrBool false ∧
    ZeroOnAbsent (boolMessageExtension rt n) DescriptorProto.Options
      (fun o => getExtension rt o.asMessage GoType.ptrMessageOptions n GoType.ptrBool)
      GoValue.isPtrBool false := by
  refine ⟨?_, ?_, ?_, ?_, ?_, ?_, ?_, ?_, ?_⟩ <;>
    refine ⟨rfl, ?_, ?_⟩
  all_goals first
    | (intro d hd
       simp [stringMethodOptionsExtension, boolMethodOptionsExtension,
        stringFileOptionsExtension, stringFieldExtension, int64FieldExtension,
        boolFieldExtension, int64MessageExtension, stringMessageExtension,
        boolMessageExtension, hd])
    | (intro d o v ho hv hty
       cases v <;>
       simp_all [stringMethodOptionsExtension, boolMethodOptionsExtension,
        stringFileOptionsExtension, stringFieldExtension, int64FieldExtension,
        boolFieldExtension, int64MessageExtension, stringMessageExtension,
        boolMessageExtension, GoValue.isPtrString, GoValue.isPtrBool, GoValue.isPtrInt64])

/-- C9 at the example runtime: the option 50001 of a method resolves to a Go
`string`, which is not a `*string`, and the accessor answers `""`. -/
theorem accessors_absent_zero_witness :
    getExtension exampleRuntime
      (MethodOptions.asMessage ⟨[(50001, GoValue.string "v".toList)]⟩)
      GoType.ptrMethodOptions 50001 GoType.ptrString = .ok (GoValue.string "v".toList) ∧
    (GoValue.string "v".toList).isPtrString = false ∧
    stringMethodOptionsExtension exampleRuntime 50001
      (some ⟨"Get".toList, some ⟨[(50001, GoValue.string "v".toList)]⟩⟩) = .ok [] :=
  ⟨by decide, by decide,
    (accessors_absent_zero exampleRuntime 50001).1.2.2
      ⟨"Get".toList, some ⟨[(50001, GoValue.string "v".toList)]⟩⟩
      ⟨[(50001, GoValue.string "v".toList)]⟩ (GoValue.string "v".toList) rfl (by decide)
      (by decide)⟩

/-! ### `GenerateFile` -/

theorem GenerateFile_services_spec {σ : Type} (files : EncoderFiles σ) (params : Parameters)
    (fd : FileDescriptorProto) (services : List ServiceDescriptorProto)
    (acc : List CodeGeneratorResponse_File) (w : World σ) :
    ∃ outs : List (List CodeGeneratorResponse_File),
      outs.length = services.length ∧
      (GenerateFile.services files params fd services acc w).2.invocations =
        w.invocations ++ (services.map (serviceEncoder params fd)).zip outs ∧
      (GenerateFile.services files params fd services acc w).1 = acc ++ outs.flatten ∧
      (GenerateFile.services files params fd services acc w).2.stderr = w.stderr := by
  induction services generalizing acc w with
  | nil => exact ⟨[], rfl, by simp [GenerateFile.services], by simp [GenerateFile.services], rfl⟩
  | cons service rest ih =>
    obtain ⟨outs, hlen, hinv, hfiles, herr⟩ := ih
      (acc ++ ((serviceEncoder params fd service).Files files w).1)
      ((serviceEncoder params fd service).Files files w).2
    refine ⟨(files (serviceEncoder params fd service) w.encoder).1 :: outs, by simp [hlen],
      ?_, ?_, ?_⟩
    · simp only [GenerateFile.services]
      exact hinv.trans (by simp [Encoder.Files, serviceEncoder])
    · simp only [GenerateFile.services]
      exact hfiles.trans (by simp [Encoder.Files, serviceEncoder])
    · simp only [GenerateFile.services]
      exact herr.trans (by simp [Encoder.Files])

/-- C3: for every parameter string that `ParseParams` maps to `All = true`,
whatever `FileMode` is, and every input file, whatever services it declares,
`GenerateFile` invokes the encoder exactly once, on the whole file, invokes no
per-service encoder, and returns exactly the files of that invocation with a
nil error. -/
theorem GenerateFile_all {σ : Type} (ToLower : GoString → GoString) (files : EncoderFiles σ)
    (gen : Plugin) (file : File) (w : World σ)
    (hAll : (ParseParams ToLower gen.Parameter).1.All = true) :
    (GenerateFile ToLower files gen file w).2.invocations =
      w.invocations ++
        [(wholeFileEncoder (ParseParams ToLower gen.Parameter).1 file.Proto,
          (files (wholeFileEncoder (ParseParams ToLower gen.Parameter).1 file.Proto)
            w.encoder).1)] ∧
    (GenerateFile ToLower files gen file w).1 =
      ((files (wholeFileEncoder (ParseParams ToLower gen.Parameter).1 file.Proto) w.encoder).1,
        none) ∧
    (GenerateFile ToLower files gen file w).2.encoder =
      (files (wholeFileEncoder (ParseParams ToLower gen.Parameter).1 file.Proto) w.encoder).2 := by
  simp [GenerateFile, hAll, Encoder.Files, wholeFileEncoder]

/-- C3 at `all=true,file-mode=true`: on the file with two services and on the
file with none, one whole-file invocation each. -/
theorem GenerateFile_all_witness :
    (ParseParams strings.ToLowerASCII (examplePlugin "all=true,file-mode=true").Parameter).1 =
      { All := true, FileMode := true } ∧
    (GenerateFile strings.ToLowerASCII exampleFiles (examplePlugin "all=true,file-mode=true")
        exampleFile2 exampleWorld).2.invocations =
      [(Encoder.NewGenericTemplateBasedEncoder [] exampleFile2.Proto false [],
        [⟨"b.out".toList, "file;".toList⟩])] ∧
    (GenerateFile strings.ToLowerASCII exampleFiles (examplePlugin "all=true,file-mode=true")
        exampleFile2 exampleWorld).1 = ([⟨"b.out".toList, "file;".toList⟩], none) ∧
    (GenerateFile strings.ToLowerASCII exampleFiles (examplePlugin "all=true,file-mode=true")
        exampleFile0 exampleWorld).2.invocations =
      [(Encoder.NewGenericTemplateBasedEncoder [] exampleFile0.Proto false [],
        [⟨"a.out".toList, "file;".toList⟩])] :=
  ⟨by decide,
    (GenerateFile_all strings.ToLowerASCII exampleFiles (examplePlugin "all=true,file-mode=true")
      exampleFile2 exampleWorld (by decide)).1,
    (GenerateFile_all strings.ToLowerASCII exampleFiles (examplePlugin "all=true,file-mode=true")
      exampleFile2 exampleWorld (by decide)).2.1,
    (GenerateFile_all strings.ToLowerASCII exampleFiles (examplePlugin "all=true,file-mode=true")
      exampleFile0 exampleWorld (by decide)).1⟩

/-- C4: for every parameter string parsed to `All = false` and
`FileMode = true`, `GenerateFile` on a file with no service invokes no encoder
and returns no file and a nil error, and on a file with at least one service
invokes the encoder exactly once, on the whole file, and returns its files. -/
theorem GenerateFile_fileMode {σ : Type} (ToLower : GoString → GoString)
    (files : EncoderFiles σ) (gen : Plugin) (file : File) (w : World σ)
    (hAll : (ParseParams ToLower gen.Parameter).1.All = false)
    (hFileMode : (ParseParams ToLower gen.Parameter).1.FileMode = true) :
    (file.Proto.Service.length = 0 →
      (GenerateFile ToLower files gen file w).2.invocations = w.invocations ∧
      (GenerateFile ToLower files gen file w).1 = ([], none) ∧
      (GenerateFile ToLower files gen file w).2.encoder = w.encoder) ∧
    (1 ≤ file.Proto.Service.length →
      (GenerateFile ToLower files gen file w).2.invocations =
        w.invocations ++
          [(wholeFileEncoder (ParseParams ToLower gen.Parameter).1 file.Proto,
            (files (wholeFileEncoder (ParseParams ToLower gen.Parameter).1 file.Proto)
              w.encoder).1)] ∧
      (GenerateFile ToLower files gen file w).1 =
        ((files (wholeFileEncoder (ParseParams ToLower gen.Parameter).1 file.Proto)
          w.encoder).1, none) ∧
      (GenerateFile ToLower files gen file w).2.encoder =
        (files (wholeFileEncoder (ParseParams ToLower gen.Parameter).1 file.Proto)
          w.encoder).2) := by
  constructor
  · intro h0
    simp [GenerateFile, hAll, hFileMode, h0]
  · intro h1
    have hpos : 0 < file.Proto.Service.length := h1
    simp [GenerateFile, hAll, hFileMode, hpos, Encoder.Files, wholeFileEncoder]

/-- C4 at `file-mode=true`: nothing for the file with no service, one
whole-file invocation for the file with two. -/
theorem GenerateFile_fileMode_witness :
    (ParseParams strings.ToLowerASCII (examplePlugin "file-mode=true").Parameter).1 =
      { FileMode := true } ∧
    ((GenerateFile strings.ToLowerASCII exampleFiles (examplePlugin "file-mode=true")
        exampleFile0 exampleWorld).2.invocations = [] ∧
      (GenerateFile strings.ToLowerASCII exampleFiles (examplePlugin "file-mode=true")
        exampleFile0 exampleWorld).1 = ([], none) ∧
      (GenerateFile strings.ToLowerASCII exampleFiles (examplePlugin "file-mode=true")
        exampleFile0 exampleWorld).2.encoder = 0) ∧
    (GenerateFile strings.ToLowerASCII exampleFiles (examplePlugin "file-mode=true")
        exampleFile2 exampleWorld).1 = ([⟨"b.out".toList, "file;".toList⟩], none) :=
  ⟨by decide,
    (GenerateFile_fileMode strings.ToLowerASCII exampleFiles (examplePlugin "file-mode=true")
      exampleFile0 exampleWorld (by decide) (by decide)).1 (by decide),
    ((GenerateFile_fileMode strings.ToLowerASCII exampleFiles (examplePlugin "file-mode=true")
      exampleFile2 exampleWorld (by decide) (by decide)).2 (by decide)).2.1⟩

/-- C5: for every parameter string parsed to `All = false` and
`FileMode = false` and every file with `N` services, `N ≥ 1` included,
`GenerateFile` invokes
the encoder exactly `N` times, the i-th time on the i-th declared service
together with the file, and returns, with a nil error, the concatenation of the
files of these invocations in the order of the declarations. -/
theorem GenerateFile_serviceMode {σ : Type} (ToLower : GoString → GoString)
    (files : EncoderFiles σ) (gen : Plugin) (file : File) (w : World σ)
    (hAll : (ParseParams ToLower gen.Parameter).1.All = false)
    (hFileMode : (ParseParams ToLower gen.Parameter).1.FileMode = false) :
    ∃ outs : List (List CodeGeneratorResponse_File),
      outs.length = file.Proto.Service.length ∧
      (GenerateFile ToLower files gen file w).2.invocations =
        w.invocations ++
          (file.Proto.Service.map
            (serviceEncoder (ParseParams ToLower gen.Parameter).1 file.Proto)).zip outs ∧
      (GenerateFile ToLower files gen file w).1 = (outs.flatten, none) := by
  obtain ⟨outs, hlen, hinv, hfiles, -⟩ :=
    GenerateFile_services_spec files (ParseParams ToLower gen.Parameter).1 file.Proto
      file.Proto.Service [] { w with stderr := w.stderr ++ (ParseParams ToLower gen.Parameter).2 }
  refine ⟨outs, hlen, ?_, ?_⟩
  · simpa [GenerateFile, hAll, hFileMode] using hinv
  · simpa [GenerateFile, hAll, hFileMode] using hfiles

/-- C5 at the empty parameter string and the file with two services: the two
invocations found by the theorem are the ones on `S1` and on `S2`. -/
theorem GenerateFile_serviceMode_witness :
    (ParseParams strings.ToLowerASCII (examplePlugin "").Parameter).1 = {} ∧
    exampleFile2.Proto.Service.length = 2 ∧
    (∃ outs : List (List CodeGeneratorResponse_File),
      outs.length = 2 ∧
      (GenerateFile strings.ToLowerASCII exampleFiles (examplePlugin "") exampleFile2
        exampleWorld).2.invocations =
        [] ++ (exampleFile2.Proto.Service.map (serviceEncoder {} exampleFile2.Proto)).zip outs ∧
      (GenerateFile strings.ToLowerASCII exampleFiles (examplePlugin "") exampleFile2
        exampleWorld).1 = (outs.flatten, none)) ∧
    (GenerateFile strings.ToLowerASCII exampleFiles (examplePlugin "") exampleFile2
        exampleWorld).1 =
      ([⟨"S1.out".toList, "service;".toList⟩, ⟨"S2.out".toList, "service;".toList⟩], none) :=
  ⟨by decide, by decide,
    GenerateFile_serviceMode strings.ToLowerASCII exampleFiles (examplePlugin "") exampleFile2
      exampleWorld (by decide) (by decide),
    by decide⟩

/-! ### `strings.Split` and `ParseParams` -/

theorem Split_of_not_mem (sep : Char) (s : GoString) (h : sep ∉ s) :
    strings.Split s sep = [s] := by
  induction s with
  | nil => rfl
  | cons c cs ih =>
    have hc : c ≠ sep := fun e => h (by simp [e])
    have hcs : sep ∉ cs := fun e => h (by simp [e])
    simp [strings.Split, hc, ih hcs]

theorem Split_append_sep (sep : Char) (a b : GoString) (h : sep ∉ a) :
    strings.Split (a ++ sep :: b) sep = a :: strings.Split b sep := by
  induction a with
  | nil => simp [strings.Split]
  | cons c cs ih =>
    have hc : c ≠ sep := fun e => h (by simp [e])
    have hcs : sep ∉ cs := fun e => h (by simp [e])
    simp [strings.Split, hc, ih hcs]

theorem Split_key_value (key value : GoString) (hk : '=' ∉ key) (hv : '=' ∉ value) :
    strings.Split (key ++ '=' :: value) '=' = [key, value] := by
  rw [Split_append_sep _ _ _ hk, Split_of_not_mem _ _ hv]

theorem ParseParams_single (ToLower : GoString → GoString) (tok : GoString) (hne : tok ≠ [])
    (hc : ',' ∉ tok) :
    ParseParams ToLower tok = ParseParams.body ToLower ({}, []) tok := by
  simp [ParseParams, hne, Split_of_not_mem _ _ hc]

theorem Split_length (sep : Char) (s : GoString) :
    (strings.Split s sep).length = s.count sep + 1 := by
  induction s with
  | nil => rfl
  | cons c cs ih =>
    by_cases hc : c = sep
    · simp [strings.Split, hc, ih]
    · have hne : (c == sep) = false := by simpa using hc
      cases hs : strings.Split cs sep with
      | nil => simp [hs] at ih
      | cons p ps =>
        rw [hs] at ih
        simp [strings.Split, hc, hs, List.count_cons, hne] at ih ⊢
        omega

theorem Split_joinTokens (toks : List GoString) (hne : toks ≠ [])
    (hc : ∀ t ∈ toks, ',' ∉ t) : strings.Split (joinTokens toks) ',' = toks := by
  induction toks with
  | nil => exact absurd rfl hne
  | cons t ts ih =>
    cases ts with
    | nil => simpa [joinTokens] using Split_of_not_mem ',' t (hc t (by simp))
    | cons u us =>
      have h1 := ih (by simp) (fun x hx => hc x (List.mem_cons_of_mem _ hx))
      simp only [joinTokens] at h1 ⊢
      rw [Split_append_sep _ _ _ (hc t (by simp))]
      simp only [joinTokens, h1]

/-- The loop body adds to the log and reads the parameters only. -/
theorem ParseParams_body_log (ToLower : GoString → GoString) (acc : Parameters × List LogEntry)
    (tok : GoString) :
    ParseParams.body ToLower acc tok =
      ((ParseParams.body ToLower (acc.1, []) tok).1,
        acc.2 ++ (ParseParams.body ToLower (acc.1, []) tok).2) := by
  simp only [ParseParams.body]
  split
  · repeat' split
    all_goals simp
  · simp

theorem ParseParams_foldl_log (ToLower : GoString → GoString) (toks : List GoString)
    (acc : Parameters × List LogEntry) :
    toks.foldl (ParseParams.body ToLower) acc =
      ((toks.foldl (ParseParams.body ToLower) (acc.1, [])).1,
        acc.2 ++ (toks.foldl (ParseParams.body ToLower) (acc.1, [])).2) := by
  induction toks generalizing acc with
  | nil => simp
  | cons t ts ih =>
    simp only [List.foldl_cons]
    rw [ih (ParseParams.body ToLower acc t), ih (ParseParams.body ToLower (acc.1, []) t)]
    rw [ParseParams_body_log ToLower acc t]
    simp

theorem ParseParams_body_wellFormed (ToLower : GoString → GoString) (p : Parameters)
    (tok : GoString) (h : WellFormedToken ToLower tok) :
    (ParseParams.body ToLower (p, []) tok).2 = [] := by
  obtain ⟨key, value, rfl, hk, hv, -, hkey⟩ := h
  have hs := Split_key_value key value hk hv
  simp only [ParseParams.body, hs]
  rcases hkey with rfl | rfl | ⟨hb, hval⟩
  · simp +decide
  · simp +decide
  · simp only [boolKeys, List.mem_cons, List.mem_singleton, List.not_mem_nil, or_false] at hb hval
    rcases hb with rfl | rfl | rfl | rfl <;> rcases hval with hval | hval | hval | hval <;>
      simp +decide [hval, boolTrue, boolFalse]

theorem ParseParams_body_bad (ToLower : GoString → GoString) (p : Parameters)
    (tok : GoString) (h : BadToken tok) :
    ∃ d, ParseParams.body ToLower (p, []) tok = (p, [d]) := by
  obtain ⟨-, h | ⟨key, value, rfl, hk, hv, hkey⟩⟩ := h
  · have hlen := Split_length '=' tok
    simp only [ParseParams.body]
    split
    · rename_i heq
      rw [heq] at hlen
      simp at hlen
      omega
    · exact ⟨_, rfl⟩
  · have hs := Split_key_value key value hk hv
    simp only [knownKeys, List.mem_cons, List.mem_singleton, List.not_mem_nil, or_false,
      not_or] at hkey
    obtain ⟨h1, h2, h3, h4, h5, h6⟩ := hkey
    simp only [ParseParams.body, hs, h1, h2, h3, h4, h5, h6, if_false, List.nil_append]
    exact ⟨_, rfl⟩

theorem ParseParams_foldl_wellFormed (ToLower : GoString → GoString) (toks : List GoString)
    (h : ∀ t ∈ toks, WellFormedToken ToLower t) (p : Parameters) :
    (toks.foldl (ParseParams.body ToLower) (p, [])).2 = [] := by
  induction toks generalizing p with
  | nil => rfl
  | cons t ts ih =>
    simp only [List.foldl_cons]
    rw [ParseParams_foldl_log]
    rw [ParseParams_body_wellFormed ToLower p t (h t (by simp))]
    simpa using ih (fun x hx => h x (List.mem_cons_of_mem _ hx)) _

theorem joinTokens_ne_nil (toks : List GoString) (hne : toks ≠ [])
    (h : ∀ t ∈ toks, t ≠ []) : joinTokens toks ≠ [] := by
  cases toks with
  | nil => exact absurd rfl hne
  | cons t ts =>
    cases ts with
    | nil => simpa [joinTokens] using h t (by simp)
    | cons u us => simp [joinTokens]

theorem ParseParams_joinTokens (ToLower : GoString → GoString) (toks : List GoString)
    (hne : joinTokens toks ≠ []) (hc : ∀ t ∈ toks, ',' ∉ t) :
    ParseParams ToLower (joinTokens toks) = toks.foldl (ParseParams.body ToLower) ({}, []) := by
  have htoks : toks ≠ [] := by
    rintro rfl
    exact hne rfl
  simp [ParseParams, hne, Split_joinTokens toks htoks hc]

theorem ParseParams_joinTokens_wellFormed (ToLower : GoString → GoString)
    (toks : List GoString) (h : ∀ t ∈ toks, WellFormedToken ToLower t) :
    ParseParams ToLower (joinTokens toks) = toks.foldl (ParseParams.body ToLower) ({}, []) := by
  by_cases htoks : toks = []
  · subst htoks
    rfl
  · refine ParseParams_joinTokens ToLower toks (joinTokens_ne_nil toks htoks ?_) ?_
    · intro t ht
      obtain ⟨key, value, rfl, -⟩ := h t ht
      simp
    · intro t ht
      obtain ⟨key, value, -, -, -, hc, -⟩ := h t ht
      exact hc

theorem joinTokens_eq_nil (toks : List GoString) (h : joinTokens toks = []) :
    toks = [] ∨ toks = [[]] := by
  cases toks with
  | nil => exact Or.inl rfl
  | cons t ts =>
    cases ts with
    | nil => exact Or.inr (by simpa [joinTokens] using h)
    | cons u us => simp [joinTokens] at h

theorem ParseParams_body_two_equals (ToLower : GoString → GoString) (key v : GoString)
    (hk : ',' ∉ key) (hc : ',' ∉ v) (hv : '=' ∈ v) :
    ∃ d, ParseParams.body ToLower ({}, []) (key ++ '=' :: v) = ({}, [d]) := by
  refine ParseParams_body_bad ToLower {} (key ++ '=' :: v) ⟨by simp [hk, hc], Or.inl ?_⟩
  have h1 : 0 < v.count '=' := List.count_pos_iff.mpr hv
  simp only [List.count_append, List.count_cons_self]
  omega

/-- C6: for each of the keys `single-package-mode`, `debug`, `all`, `file-mode`
and every value `v` (without `,`, so that `key=v` is a single token), parsing
`key=v` sets the flag of the key, and nothing else, with nothing logged, when
the lower-cased `v` is `true` or `t`; returns the default parameters with
nothing logged when it is `false` or `f`; and for every other `v` returns the
default parameters and logs exactly one entry. A `v` that contains `=` is among
the other values: no lower-casing of Go turns it into one of the four words. -/
theorem ParseParams_bool_token (ToLower : GoString → GoString) (v : GoString)
    (hc : ',' ∉ v) :
    ('=' ∉ v → (ToLower v = "true".toList ∨ ToLower v = "t".toList) →
      ParseParams ToLower ("single-package-mode=".toList ++ v) =
        ({ SinglePackageMode := true }, []) ∧
      ParseParams ToLower ("debug=".toList ++ v) = ({ Debug := true }, []) ∧
      ParseParams ToLower ("all=".toList ++ v) = ({ All := true }, []) ∧
      ParseParams ToLower ("file-mode=".toList ++ v) = ({ FileMode := true }, [])) ∧
    ('=' ∉ v → (ToLower v = "false".toList ∨ ToLower v = "f".toList) →
      ParseParams ToLower ("single-package-mode=".toList ++ v) = ({}, []) ∧
      ParseParams ToLower ("debug=".toList ++ v) = ({}, []) ∧
      ParseParams ToLower ("all=".toList ++ v) = ({}, []) ∧
      ParseParams ToLower ("file-mode=".toList ++ v) = ({}, [])) ∧
    (('=' ∈ v ∨
        (¬ (ToLower v = "true".toList ∨ ToLower v = "t".toList) ∧
          ¬ (ToLower v = "false".toList ∨ ToLower v = "f".toList))) →
      ((ParseParams ToLower ("single-package-mode=".toList ++ v)).1 = {} ∧
        ∃ d, (ParseParams ToLower ("single-package-mode=".toList ++ v)).2 = [d]) ∧
      ((ParseParams ToLower ("debug=".toList ++ v)).1 = {} ∧
        ∃ d, (ParseParams ToLower ("debug=".toList ++ v)).2 = [d]) ∧
      ((ParseParams ToLower ("all=".toList ++ v)).1 = {} ∧
        ∃ d, (ParseParams ToLower ("all=".toList ++ v)).2 = [d]) ∧
      ((ParseParams ToLower ("file-mode=".toList ++ v)).1 = {} ∧
        ∃ d, (ParseParams ToLower ("file-mode=".toList ++ v)).2 = [d])) := by
  have e1 : "single-package-mode=".toList ++ v = "single-package-mode".toList ++ '=' :: v := rfl
  have e2 : "debug=".toList ++ v = "debug".toList ++ '=' :: v := rfl
  have e3 : "all=".toList ++ v = "all".toList ++ '=' :: v := rfl
  have e4 : "file-mode=".toList ++ v = "file-mode".toList ++ '=' :: v := rfl
  have p1 := ParseParams_single ToLower ("single-package-mode".toList ++ '=' :: v)
    (by simp) (by simpa using hc)
  have p2 := ParseParams_single ToLower ("debug".toList ++ '=' :: v) (by simp) (by simpa using hc)
  have p3 := ParseParams_single ToLower ("all".toList ++ '=' :: v) (by simp) (by simpa using hc)
  have p4 := ParseParams_single ToLower ("file-mode".toList ++ '=' :: v)
    (by simp) (by simpa using hc)
  rw [e1, e2, e3, e4, p1, p2, p3, p4]
  have split4 : '=' ∉ v →
      strings.Split ("single-package-mode".toList ++ '=' :: v) '=' =
        ["single-package-mode".toList, v] ∧
      strings.Split ("debug".toList ++ '=' :: v) '=' = ["debug".toList, v] ∧
      strings.Split ("all".toList ++ '=' :: v) '=' = ["all".toList, v] ∧
      strings.Split ("file-mode".toList ++ '=' :: v) '=' = ["file-mode".toList, v] :=
    fun he => ⟨Split_key_value _ v (by decide) he, Split_key_value _ v (by decide) he,
      Split_key_value _ v (by decide) he, Split_key_value _ v (by decide) he⟩
  refine ⟨?_, ?_, ?_⟩
  · intro he h
    obtain ⟨s1, s2, s3, s4⟩ := split4 he
    simp +decide only [ParseParams.body, s1, s2, s3, s4, h, boolTrue, if_true, if_false, and_self]
  · intro he h
    obtain ⟨s1, s2, s3, s4⟩ := split4 he
    have hn : ¬ (ToLower v = "true".toList ∨ ToLower v = "t".toList) := by
      rcases h with h | h <;> rw [h] <;> decide
    simp +decide only [ParseParams.body, s1, s2, s3, s4, h, hn, boolTrue, boolFalse, if_true,
      if_false, and_self]
  · rintro (hv | ⟨hn, hf⟩)
    · obtain ⟨d1, h1⟩ := ParseParams_body_two_equals ToLower "single-package-mode".toList v
        (by decide) hc hv
      obtain ⟨d2, h2⟩ := ParseParams_body_two_equals ToLower "debug".toList v (by decide) hc hv
      obtain ⟨d3, h3⟩ := ParseParams_body_two_equals ToLower "all".toList v (by decide) hc hv
      obtain ⟨d4, h4⟩ := ParseParams_body_two_equals ToLower "file-mode".toList v (by decide) hc hv
      rw [h1, h2, h3, h4]
      exact ⟨⟨rfl, d1, rfl⟩, ⟨rfl, d2, rfl⟩, ⟨rfl, d3, rfl⟩, ⟨rfl, d4, rfl⟩⟩
    · by_cases he : '=' ∈ v
      · obtain ⟨d1, h1⟩ := ParseParams_body_two_equals ToLower "single-package-mode".toList v
          (by decide) hc he
        obtain ⟨d2, h2⟩ := ParseParams_body_two_equals ToLower "debug".toList v (by decide) hc he
        obtain ⟨d3, h3⟩ := ParseParams_body_two_equals ToLower "all".toList v (by decide) hc he
        obtain ⟨d4, h4⟩ := ParseParams_body_two_equals ToLower "file-mode".toList v
          (by decide) hc he
        rw [h1, h2, h3, h4]
        exact ⟨⟨rfl, d1, rfl⟩, ⟨rfl, d2, rfl⟩, ⟨rfl, d3, rfl⟩, ⟨rfl, d4, rfl⟩⟩
      · obtain ⟨s1, s2, s3, s4⟩ := split4 he
        simp +decide only [ParseParams.body, s1, s2, s3, s4, hf, hn, boolTrue, boolFalse, if_true,
          if_false, List.nil_append, List.cons.injEq, and_true, exists_eq', and_self]

/-- C6 at `TRUE`, `F` and `maybe`. -/
theorem ParseParams_bool_token_witness :
    (strings.ToLowerASCII "TRUE".toList = "true".toList ∧
      ParseParams strings.ToLowerASCII ("debug=".toList ++ "TRUE".toList) =
        ({ Debug := true }, [])) ∧
    (strings.ToLowerASCII "F".toList = "f".toList ∧
      ParseParams strings.ToLowerASCII ("all=".toList ++ "F".toList) = ({}, [])) ∧
    ((ParseParams strings.ToLowerASCII ("file-mode=".toList ++ "maybe".toList)).1 = {} ∧
      ∃ d, (ParseParams strings.ToLowerASCII ("file-mode=".toList ++ "maybe".toList)).2 = [d]) :=
  ⟨⟨by decide,
    ((ParseParams_bool_token strings.ToLowerASCII "TRUE".toList (by decide)).1 (by decide)
      (Or.inl (by decide))).2.1⟩,
   ⟨by decide,
    ((ParseParams_bool_token strings.ToLowerASCII "F".toList (by decide)).2.1 (by decide)
      (Or.inr (by decide))).2.2.1⟩,
   ((ParseParams_bool_token strings.ToLowerASCII "maybe".toList (by decide)).2.2
      (Or.inr ⟨by decide, by decide⟩)).2.2.2⟩

/-- C7, as the code has it: for every list of well-formed tokens and one bad
token inserted at any position, the bad token being one that does not contain
exactly one `=` or one with an unknown key, `ParseParams` returns the same
parameters as for the well-formed tokens alone and logs exactly one entry,
provided the parameter string is not empty, that is, there is a well-formed
token or the bad token is not the empty string. -/
theorem ParseParams_bad_token_skipped (ToLower : GoString → GoString)
    (xs ys : List GoString) (bad : GoString)
    (hw : ∀ t ∈ xs ++ ys, WellFormedToken ToLower t) (hb : BadToken bad)
    (hne : xs ++ ys ≠ [] ∨ bad ≠ []) :
    (ParseParams ToLower (joinTokens (xs ++ bad :: ys))).1 =
      (ParseParams ToLower (joinTokens (xs ++ ys))).1 ∧
    ∃ d, (ParseParams ToLower (joinTokens (xs ++ bad :: ys))).2 = [d] := by
  have hwx : ∀ t ∈ xs, WellFormedToken ToLower t := fun t ht => hw t (by simp [ht])
  have hwy : ∀ t ∈ ys, WellFormedToken ToLower t := fun t ht => hw t (by simp [ht])
  have hjoin : joinTokens (xs ++ bad :: ys) ≠ [] := by
    intro h
    rcases joinTokens_eq_nil _ h with h | h
    · simp at h
    · rcases hne with hne | hne
      · apply hne
        have hl := congrArg List.length h
        simp at hl
        have hx : xs.length = 0 := by omega
        have hy : ys.length = 0 := by omega
        rw [List.length_eq_zero] at hx hy
        simp [hx, hy]
      · apply hne
        have hx : xs = [] := by
          cases xs with
          | nil => rfl
          | cons a as =>
            have hl := congrArg List.length h
            simp at hl
        subst hx
        simpa using (List.cons.inj h).1
  have hcomma : ∀ t ∈ xs ++ bad :: ys, ',' ∉ t := by
    intro t ht
    simp only [List.mem_append, List.mem_cons] at ht
    rcases ht with ht | rfl | ht
    · obtain ⟨key, value, -, -, -, hc, -⟩ := hwx t ht
      exact hc
    · exact hb.1
    · obtain ⟨key, value, -, -, -, hc, -⟩ := hwy t ht
      exact hc
  rw [ParseParams_joinTokens ToLower _ hjoin hcomma, ParseParams_joinTokens_wellFormed ToLower _ hw]
  simp only [List.foldl_append, List.foldl_cons]
  have hA := ParseParams_foldl_wellFormed ToLower xs hwx {}
  have hAeq : xs.foldl (ParseParams.body ToLower) ({}, []) =
      ((xs.foldl (ParseParams.body ToLower) ({}, [])).1, []) :=
    Prod.ext rfl hA
  obtain ⟨d, hd⟩ := ParseParams_body_bad ToLower (xs.foldl (ParseParams.body ToLower) ({}, [])).1
    bad hb
  rw [hAeq, hd, ParseParams_foldl_log ToLower ys (_, [d])]
  refine ⟨rfl, d, ?_⟩
  simp [ParseParams_foldl_wellFormed ToLower ys hwy]

/-- C7 at `bogus=1,debug=true`: `debug` is true and one entry is logged. -/
theorem ParseParams_bad_token_skipped_witness :
    WellFormedToken strings.ToLowerASCII "debug=true".toList ∧
    BadToken "bogus=1".toList ∧
    joinTokens ([] ++ "bogus=1".toList :: ["debug=true".toList]) = "bogus=1,debug=true".toList ∧
    (ParseParams strings.ToLowerASCII "bogus=1,debug=true".toList).1 = { Debug := true } ∧
    ((ParseParams strings.ToLowerASCII
        (joinTokens ([] ++ "bogus=1".toList :: ["debug=true".toList]))).1 =
      (ParseParams strings.ToLowerASCII (joinTokens ([] ++ ["debug=true".toList]))).1 ∧
     ∃ d, (ParseParams strings.ToLowerASCII
        (joinTokens ([] ++ "bogus=1".toList :: ["debug=true".toList]))).2 = [d]) :=
  have hwf : WellFormedToken strings.ToLowerASCII "debug=true".toList :=
    ⟨"debug".toList, "true".toList, by decide, by decide, by decide, by decide,
      Or.inr (Or.inr (by decide))⟩
  have hbad : BadToken "bogus=1".toList :=
    ⟨by decide, Or.inr ⟨"bogus".toList, "1".toList, by decide, by decide, by decide, by decide⟩⟩
  ⟨hwf, hbad, by decide, by decide,
    ParseParams_bad_token_skipped strings.ToLowerASCII [] ["debug=true".toList] "bogus=1".toList
      (by
        intro t ht
        have ht2 : t = "debug=true".toList := by simpa using ht
        rw [ht2]
        exact hwf)
      hbad (Or.inl (by decide))⟩

/-- C7 as stated fails at no well-formed token and the empty bad token: the
empty token does not contain exactly one `=`, the parameter string is empty, and
`ParseParams` logs nothing instead of one entry. -/
theorem ParseParams_bad_token_empty_counterexample :
    BadToken [] ∧
    (∀ t ∈ ([] : List GoString) ++ [], WellFormedToken strings.ToLowerASCII t) ∧
    ¬ ∃ d, (ParseParams strings.ToLowerASCII (joinTokens ([] ++ [] :: []))).2 = [d] :=
  ⟨⟨by decide, Or.inl (by decide)⟩, by simp, by
    rintro ⟨d, hd⟩
    have h : (ParseParams strings.ToLowerASCII (joinTokens ([] ++ [] :: []))).2 = [] := by decide
    rw [h] at hd
    cases hd⟩

/-! ### `main` -/

theorem GoMap_get?_set {K V : Type} [DecidableEq K] (m : GoMap K V) (k k2 : K) (v : V) :
    (m.set k v).get? k2 = if k = k2 then some v else m.get? k2 := by
  induction m with
  | nil => simp [GoMap.set, GoMap.get?]
  | cons e m ih =>
    obtain ⟨k1, v1⟩ := e
    by_cases h1 : k1 = k
    · subst h1
      by_cases h2 : k1 = k2 <;> simp [GoMap.set, GoMap.get?, h2]
    · by_cases h2 : k1 = k2
      · subst h2
        have h3 : ¬ k = k1 := fun e => h1 e.symm
        simp [GoMap.set, GoMap.get?, h1, h3]
      · simp [GoMap.set, GoMap.get?, h1, h2, ih]

theorem GoMap_get?_eq_none {K V : Type} [DecidableEq K] (m : GoMap K V) (k : K) :
    m.get? k = none ↔ k ∉ m.map Prod.fst := by
  induction m with
  | nil => simp [GoMap.get?]
  | cons e m ih =>
    obtain ⟨k1, v1⟩ := e
    by_cases h1 : k1 = k
    · simp [GoMap.get?, h1]
    · have h2 : ¬ k = k1 := fun e => h1 e.symm
      simp [GoMap.get?, h1, h2, ih]

theorem GoMap_keys_set {K V : Type} [DecidableEq K] (m : GoMap K V) (k : K) (v : V) :
    (m.set k v).map Prod.fst =
      if k ∈ m.map Prod.fst then m.map Prod.fst else m.map Prod.fst ++ [k] := by
  induction m with
  | nil => simp [GoMap.set]
  | cons e m ih =>
    obtain ⟨k1, v1⟩ := e
    by_cases h1 : k1 = k
    · simp [GoMap.set, h1]
    · have h2 : ¬ k = k1 := fun e => h1 e.symm
      simp only [GoMap.set, h1, if_false, List.map_cons, ih, List.mem_cons, h2, false_or]
      split <;> simp

theorem GoMap_nodup_set {K V : Type} [DecidableEq K] (m : GoMap K V) (k : K) (v : V)
    (h : (m.map Prod.fst).Nodup) : ((m.set k v).map Prod.fst).Nodup := by
  rw [GoMap_keys_set]
  split
  · exact h
  · rename_i hk
    rw [List.nodup_append]
    exact ⟨h, List.nodup_singleton k, by
      intro a ha hb
      simp at hb
      exact hk (hb ▸ ha)⟩

theorem GoMap_get?_of_mem {K V : Type} [DecidableEq K] (m : GoMap K V) (k : K) (v : V)
    (hn : (m.map Prod.fst).Nodup) (h : (k, v) ∈ m) : m.get? k = some v := by
  induction m with
  | nil => simp at h
  | cons e m ih =>
    obtain ⟨k1, v1⟩ := e
    simp only [List.map_cons, List.nodup_cons] at hn
    rcases List.mem_cons.mp h with h | h
    · cases h
      simp [GoMap.get?]
    · have hk : k ∈ m.map Prod.fst := List.mem_map.mpr ⟨(k, v), h, rfl⟩
      have h1 : ¬ k1 = k := fun e => hn.1 (e ▸ hk)
      simp [GoMap.get?, h1, ih hn.2 h]

theorem fragmentsNamed_append (D : GoString)
    (l1 l2 : List (GoString × CodeGeneratorResponse_File)) :
    fragmentsNamed D (l1 ++ l2) = fragmentsNamed D l1 ++ fragmentsNamed D l2 := by
  simp [fragmentsNamed]

theorem fragmentsNamed_eq_nil (D : GoString) (l : List (GoString × CodeGeneratorResponse_File))
    (h : D ∉ l.map (fun x => x.2.Name)) : fragmentsNamed D l = [] := by
  simp only [fragmentsNamed, List.filter_eq_nil_iff]
  intro x hx hD
  exact h (List.mem_map.mpr ⟨x, hx, by simpa using hD⟩)

theorem fragmentsNamed_ne_nil (D : GoString) (l : List (GoString × CodeGeneratorResponse_File))
    (h : D ∈ l.map (fun x => x.2.Name)) : fragmentsNamed D l ≠ [] := by
  obtain ⟨x, hx, hD⟩ := List.mem_map.mp h
  intro hnil
  have : x ∈ fragmentsNamed D l := by
    simp only [fragmentsNamed, List.mem_filter]
    exact ⟨hx, by simpa using hD⟩
  rw [hnil] at this
  cases this

theorem Aggregated_nil : Aggregated ⟨[], []⟩ [] :=
  ⟨by simp, by simp [GoMap.get?], by simp [GoMap.get?, importFor, fragmentsNamed]⟩

theorem contentFor_snoc (D : GoString) (l : List (GoString × CodeGeneratorResponse_File))
    (x : GoString × CodeGeneratorResponse_File) :
    contentFor D (l ++ [x]) = contentFor D l ++ (if x.2.Name = D then x.2.Content else []) := by
  by_cases hD : x.2.Name = D
  · simp only [contentFor, fragmentsNamed, List.filter_append, List.map_append,
      List.flatten_append, hD, if_true]
    simp [List.filter, hD]
  · simp only [contentFor, fragmentsNamed, List.filter_append, List.map_append,
      List.flatten_append, hD, if_false]
    simp [List.filter, hD]

theorem contentFor_of_not_mem (D : GoString) (l : List (GoString × CodeGeneratorResponse_File))
    (h : D ∉ l.map (fun x => x.2.Name)) : contentFor D l = [] := by
  simp only [contentFor, fragmentsNamed_eq_nil D l h, List.map_nil, List.flatten_nil]

theorem importFor_snoc_of_mem (D : GoString) (l : List (GoString × CodeGeneratorResponse_File))
    (x : GoString × CodeGeneratorResponse_File) (h : D ∈ l.map (fun x => x.2.Name)) :
    importFor D (l ++ [x]) = importFor D l := by
  have hne := fragmentsNamed_ne_nil D l h
  simp only [importFor, fragmentsNamed_append]
  cases hf : fragmentsNamed D l with
  | nil => exact absurd hf hne
  | cons a as => rfl

theorem importFor_snoc_of_not_mem (D : GoString)
    (l : List (GoString × CodeGeneratorResponse_File))
    (x : GoString × CodeGeneratorResponse_File) (h : D ∉ l.map (fun x => x.2.Name)) :
    importFor D (l ++ [x]) = if x.2.Name = D then some x.1 else none := by
  simp only [importFor, fragmentsNamed_append, fragmentsNamed_eq_nil D l h, List.nil_append]
  by_cases hD : x.2.Name = D
  · simp only [fragmentsNamed, List.filter, hD, decide_True, if_true]
    rfl
  · simp only [fragmentsNamed, List.filter, hD, decide_False, if_false]
    rfl

theorem importFor_of_not_mem (D : GoString) (l : List (GoString × CodeGeneratorResponse_File))
    (h : D ∉ l.map (fun x => x.2.Name)) : importFor D l = none := by
  simp only [importFor, fragmentsNamed_eq_nil D l h]
  rfl

theorem Aggregated_mergeOne (g : Generated) (l : List (GoString × CodeGeneratorResponse_File))
    (x : GoString × CodeGeneratorResponse_File) (h : Aggregated g l) :
    Aggregated (mergeOne g x) (l ++ [x]) := by
  have hnames : ∀ D, D ∈ (l ++ [x]).map (fun x => x.2.Name) ↔
      (D ∈ l.map (fun x => x.2.Name) ∨ x.2.Name = D) := by
    intro D
    simp only [List.map_append, List.mem_append, List.map_cons, List.map_nil,
      List.mem_singleton]
    exact ⟨fun h => h.imp id Eq.symm, fun h => h.imp id Eq.symm⟩
  cases hget : g.generatedFiles.get? x.2.Name with
  | some content =>
    have hmem : x.2.Name ∈ l.map (fun x => x.2.Name) := by
      by_contra hc
      have := h.content x.2.Name
      rw [if_neg hc, hget] at this
      cases this
    have hcontent : content = contentFor x.2.Name l := by
      have := h.content x.2.Name
      rw [if_pos hmem, hget] at this
      exact Option.some.inj this
    refine ⟨?_, ?_, ?_⟩
    · simp only [mergeOne, hget]
      exact GoMap_nodup_set _ _ _ h.nodup
    · intro D
      simp only [mergeOne, hget, GoMap_get?_set, contentFor_snoc]
      by_cases hD : x.2.Name = D
      · subst hD
        rw [if_pos rfl, if_pos ((hnames _).mpr (Or.inr rfl)), if_pos rfl, hcontent]
      · rw [if_neg hD, if_neg hD, List.append_nil, h.content D]
        by_cases hl : D ∈ l.map (fun x => x.2.Name)
        · rw [if_pos hl, if_pos ((hnames D).mpr (Or.inl hl))]
        · rw [if_neg hl, if_neg (fun hc => ((hnames D).mp hc).elim hl hD)]
    · intro D
      simp only [mergeOne, hget, h.imports D]
      by_cases hl : D ∈ l.map (fun x => x.2.Name)
      · rw [importFor_snoc_of_mem D l x hl]
      · have hD : ¬ x.2.Name = D := fun e => hl (e ▸ hmem)
        rw [importFor_snoc_of_not_mem D l x hl, if_neg hD, importFor_of_not_mem D l hl]
  | none =>
    have hmem : x.2.Name ∉ l.map (fun x => x.2.Name) := by
      intro hc
      have := h.content x.2.Name
      rw [if_pos hc, hget] at this
      cases this
    refine ⟨?_, ?_, ?_⟩
    · simp only [mergeOne, hget]
      exact GoMap_nodup_set _ _ _ h.nodup
    · intro D
      simp only [mergeOne, hget, GoMap_get?_set, contentFor_snoc]
      by_cases hD : x.2.Name = D
      · subst hD
        rw [if_pos rfl, if_pos ((hnames _).mpr (Or.inr rfl)), if_pos rfl,
          contentFor_of_not_mem _ l hmem, List.nil_append]
      · rw [if_neg hD, if_neg hD, List.append_nil, h.content D]
        by_cases hl : D ∈ l.map (fun x => x.2.Name)
        · rw [if_pos hl, if_pos ((hnames D).mpr (Or.inl hl))]
        · rw [if_neg hl, if_neg (fun hc => ((hnames D).mp hc).elim hl hD)]
    · intro D
      simp only [mergeOne, hget, GoMap_get?_set, h.imports D]
      by_cases hD : x.2.Name = D
      · subst hD
        rw [if_pos rfl, importFor_snoc_of_not_mem _ l x hmem, if_pos rfl]
      · rw [if_neg hD]
        by_cases hl : D ∈ l.map (fun x => x.2.Name)
        · rw [importFor_snoc_of_mem D l x hl]
        · rw [importFor_snoc_of_not_mem D l x hl, if_neg hD, importFor_of_not_mem D l hl]

theorem Aggregated_foldl (xs l : List (GoString × CodeGeneratorResponse_File)) (g : Generated)
    (h : Aggregated g l) : Aggregated (xs.foldl mergeOne g) (l ++ xs) := by
  induction xs generalizing g l with
  | nil => simpa using h
  | cons x xs ih =>
    have := ih (l ++ [x]) (mergeOne g x) (Aggregated_mergeOne g l x h)
    simpa using this

theorem main_merge_eq (f : File) (frs : List CodeGeneratorResponse_File) (g : Generated) :
    main.merge f g frs = (frs.map fun x => (f.GoImportPath, x)).foldl mergeOne g := by
  induction frs generalizing g with
  | nil => rfl
  | cons file rest ih =>
    simp only [main.merge, List.map_cons, List.foldl_cons, mergeOne]
    cases hget : g.generatedFiles.get? file.Name with
    | some content => exact ih _
    | none => exact ih _

theorem GenerateFile_err {σ : Type} (ToLower : GoString → GoString) (files : EncoderFiles σ)
    (gen : Plugin) (file : File) (w : World σ) :
    (GenerateFile ToLower files gen file w).1.2 = none := by
  simp only [GenerateFile]
  split
  · rfl
  · split
    · split <;> rfl
    · rfl

theorem GenerateFile_congr {σ : Type} (ToLower : GoString → GoString) (files : EncoderFiles σ)
    (gen1 gen2 : Plugin) (h : gen1.Parameter = gen2.Parameter) (file : File) (w : World σ) :
    GenerateFile ToLower files gen1 file w = GenerateFile ToLower files gen2 file w := by
  simp only [GenerateFile, h]

theorem producedFragments_congr {σ : Type} (ToLower : GoString → GoString)
    (files : EncoderFiles σ) (gen1 gen2 : Plugin) (h : gen1.Parameter = gen2.Parameter)
    (fs : List File) (w : World σ) :
    producedFragments ToLower files gen1 fs w = producedFragments ToLower files gen2 fs w := by
  induction fs generalizing w with
  | nil => rfl
  | cons f rest ih =>
    simp only [producedFragments, GenerateFile_congr ToLower files gen1 gen2 h, ih]

theorem main_loop_congr {σ : Type} (ToLower : GoString → GoString) (files : EncoderFiles σ)
    (gen1 gen2 : Plugin) (h : gen1.Parameter = gen2.Parameter) (fs : List File) (g : Generated)
    (w : World σ) :
    main.loop ToLower files gen1 fs g w = main.loop ToLower files gen2 fs g w := by
  induction fs generalizing g w with
  | nil => rfl
  | cons f rest ih =>
    simp only [main.loop, GenerateFile_congr ToLower files gen1 gen2 h, ih]

theorem main_loop_filter {σ : Type} (ToLower : GoString → GoString) (files : EncoderFiles σ)
    (gen : Plugin) (fs : List File) (g : Generated) (w : World σ) :
    main.loop ToLower files gen (fs.filter fun f => f.Generate) g w =
      main.loop ToLower files gen fs g w := by
  induction fs generalizing g w with
  | nil => rfl
  | cons f rest ih =>
    cases hG : f.Generate with
    | false => simp [List.filter, main.loop, hG, ih]
    | true =>
      simp only [List.filter, hG, main.loop, Bool.not_true, Bool.false_eq_true, if_false]
      rw [GenerateFile_err]
      exact ih _ _

theorem main_loop_fst {σ : Type} (ToLower : GoString → GoString) (files : EncoderFiles σ)
    (gen : Plugin) (fs : List File) (g : Generated) (w : World σ) :
    (main.loop ToLower files gen fs g w).1 =
      .ok ((producedFragments ToLower files gen fs w).foldl mergeOne g) := by
  induction fs generalizing g w with
  | nil => rfl
  | cons f rest ih =>
    cases hG : f.Generate with
    | false => simp [main.loop, producedFragments, hG, ih]
    | true =>
      simp only [main.loop, producedFragments, hG, Bool.not_true, Bool.false_eq_true, if_false,
        if_true, List.foldl_append]
      rw [GenerateFile_err]
      simp only [ih, main_merge_eq]

theorem main_write_genFiles (gi : GoMap GoString GoString) (entries : List (GoString × GoString))
    (gen : Plugin) :
    (main.write gi entries gen).genFiles =
      gen.genFiles ++ entries.map fun e => ⟨e.1, (gi.get? e.1).getD [], e.2⟩ := by
  induction entries generalizing gen with
  | nil => simp [main.write]
  | cons e rest ih =>
    obtain ⟨name, content⟩ := e
    simp [main.write, ih, Plugin.NewGeneratedFileWrite, GeneratedFile.Write]

/-- What `main` returns: no error, and one generated file for each entry of the
map the fragments fold to, in the order of the `range`. -/
theorem main_eq {σ : Type} (ToLower : GoString → GoString) (files : EncoderFiles σ)
    (range : GoMap GoString GoString → List (GoString × GoString)) (gen : Plugin)
    (w : World σ) :
    (main ToLower files range gen w).1.1 = none ∧
    (main ToLower files range gen w).1.2.genFiles =
      gen.genFiles ++
        (range ((producedFragments ToLower files gen gen.Files w).foldl mergeOne
          ⟨[], []⟩).generatedFiles).map fun e =>
          ⟨e.1, (((producedFragments ToLower files gen gen.Files w).foldl mergeOne
            ⟨[], []⟩).generatedImports.get? e.1).getD [], e.2⟩ := by
  have h := main_loop_fst ToLower files { gen with SupportedFeatures := FEATURE_PROTO3_OPTIONAL }
    gen.Files ⟨[], []⟩ w
  rw [producedFragments_congr ToLower files { gen with SupportedFeatures := FEATURE_PROTO3_OPTIONAL }
    gen rfl] at h
  simp only [main, h, main_write_genFiles]
  exact ⟨trivial, trivial⟩

theorem Aggregated_produced {σ : Type} (ToLower : GoString → GoString) (files : EncoderFiles σ)
    (gen : Plugin) (w : World σ) :
    Aggregated ((producedFragments ToLower files gen gen.Files w).foldl mergeOne ⟨[], []⟩)
      (producedFragments ToLower files gen gen.Files w) := by
  simpa using Aggregated_foldl (producedFragments ToLower files gen gen.Files w) [] ⟨[], []⟩
    Aggregated_nil

theorem Aggregated_entry (g : Generated) (l : List (GoString × CodeGeneratorResponse_File))
    (h : Aggregated g l) (e : GoString × GoString) (he : e ∈ g.generatedFiles) :
    e.1 ∈ l.map (fun x => x.2.Name) ∧ e.2 = contentFor e.1 l ∧
      some ((g.generatedImports.get? e.1).getD []) = importFor e.1 l := by
  have hget := GoMap_get?_of_mem g.generatedFiles e.1 e.2 h.nodup he
  have hc := h.content e.1
  rw [hget] at hc
  by_cases hl : e.1 ∈ l.map (fun x => x.2.Name)
  · rw [if_pos hl] at hc
    refine ⟨hl, Option.some.inj hc, ?_⟩
    rw [h.imports e.1]
    have hne := fragmentsNamed_ne_nil e.1 l hl
    simp only [importFor]
    cases hf : fragmentsNamed e.1 l with
    | nil => exact absurd hf hne
    | cons a as => rfl
  · rw [if_neg hl] at hc
    cases hc

theorem Aggregated_keys (g : Generated) (l : List (GoString × CodeGeneratorResponse_File))
    (h : Aggregated g l) (D : GoString) :
    D ∈ g.generatedFiles.map Prod.fst ↔ D ∈ l.map (fun x => x.2.Name) := by
  have hc := h.content D
  have hn := GoMap_get?_eq_none g.generatedFiles D
  by_cases hl : D ∈ l.map (fun x => x.2.Name)
  · rw [if_pos hl] at hc
    rw [hc] at hn
    simp only [hl, iff_true]
    by_contra hcon
    exact absurd (hn.mpr hcon) (by simp)
  · rw [if_neg hl] at hc
    simp only [hl, iff_false]
    exact hn.mp hc

/-- C1: for every sequence of input files and every behaviour of the encoder,
each file `main` commits has as content the concatenation, in encounter order,
of the contents of all fragments with its name that `GenerateFile` returned for
the files flagged for generation, and as import path the `GoImportPath` of the
input file that produced the first fragment with its name; and every fragment
name is committed. The order in which `range` visits the map is any
permutation of its entries. -/
theorem main_aggregation {σ : Type} (ToLower : GoString → GoString) (files : EncoderFiles σ)
    (range : GoMap GoString GoString → List (GoString × GoString)) (gen : Plugin)
    (w : World σ) (hrange : ∀ m, (range m).Perm m) :
    ∃ committed : List GeneratedFile,
      (main ToLower files range gen w).1.2.genFiles = gen.genFiles ++ committed ∧
      (∀ g ∈ committed,
        g.buf = contentFor g.filename (producedFragments ToLower files gen gen.Files w) ∧
        some g.goImportPath =
          importFor g.filename (producedFragments ToLower files gen gen.Files w)) ∧
      (∀ D ∈ (producedFragments ToLower files gen gen.Files w).map (fun x => x.2.Name),
        ∃ g ∈ committed, g.filename = D) := by
  have hagg := Aggregated_produced ToLower files gen w
  refine ⟨_, (main_eq ToLower files range gen w).2, ?_, ?_⟩
  · intro g hg
    obtain ⟨e, he, rfl⟩ := List.mem_map.mp hg
    have hmem := (hrange _).mem_iff.mp he
    obtain ⟨-, h2, h3⟩ := Aggregated_entry _ _ hagg e hmem
    exact ⟨h2, h3⟩
  · intro D hD
    have hk := (Aggregated_keys _ _ hagg D).mpr hD
    obtain ⟨e, he, rfl⟩ := List.mem_map.mp hk
    exact ⟨_, List.mem_map.mpr ⟨e, (hrange _).mem_iff.mpr he, rfl⟩, rfl⟩

/-- C1 at `all=true`, two input files and an encoder that names every fragment
`index`: one file is committed, with the contents `a;` and `b;` in this order
and the import path of the first input file. -/
theorem main_aggregation_witness :
    (∀ m : GoMap GoString GoString, (id m).Perm m) ∧
    producedFragments strings.ToLowerASCII indexFiles (examplePlugin "all=true")
        (examplePlugin "all=true").Files exampleWorld =
      [("example.com/a".toList, ⟨"index".toList, "a;".toList⟩),
       ("example.com/b".toList, ⟨"index".toList, "b;".toList⟩)] ∧
    (main strings.ToLowerASCII indexFiles id (examplePlugin "all=true") exampleWorld).1.2.genFiles =
      [⟨"index".toList, "example.com/a".toList, "a;b;".toList⟩] ∧
    ∃ committed : List GeneratedFile,
      (main strings.ToLowerASCII indexFiles id (examplePlugin "all=true")
        exampleWorld).1.2.genFiles = (examplePlugin "all=true").genFiles ++ committed ∧
      (∀ g ∈ committed,
        g.buf = contentFor g.filename
          (producedFragments strings.ToLowerASCII indexFiles (examplePlugin "all=true")
            (examplePlugin "all=true").Files exampleWorld) ∧
        some g.goImportPath = importFor g.filename
          (producedFragments strings.ToLowerASCII indexFiles (examplePlugin "all=true")
            (examplePlugin "all=true").Files exampleWorld)) ∧
      (∀ D ∈ (producedFragments strings.ToLowerASCII indexFiles (examplePlugin "all=true")
          (examplePlugin "all=true").Files exampleWorld).map (fun x => x.2.Name),
        ∃ g ∈ committed, g.filename = D) :=
  ⟨fun m => List.Perm.refl m, by decide, by decide,
    main_aggregation strings.ToLowerASCII indexFiles id (examplePlugin "all=true") exampleWorld
      (fun m => List.Perm.refl m)⟩

/-- C2: every run of `main` ends without error; the names of the files it
commits through `NewGeneratedFile` are exactly the names of the fragments
produced for the input files with `Generate = true`, each name committed once;
and the input files with `Generate = false` contribute nothing: removing them
from the request changes neither the error, nor the committed files, nor the
encoder invocations. The order in which `range` visits the map is any
permutation of its entries. -/
theorem main_commits_each_name_once {σ : Type} (ToLower : GoString → GoString)
    (files : EncoderFiles σ) (range : GoMap GoString GoString → List (GoString × GoString))
    (gen : Plugin) (w : World σ) (hrange : ∀ m, (range m).Perm m) :
    (main ToLower files range gen w).1.1 = none ∧
    (∃ committed : List GeneratedFile,
      (main ToLower files range gen w).1.2.genFiles = gen.genFiles ++ committed ∧
      (committed.map fun g => g.filename).Nodup ∧
      ∀ D, D ∈ (committed.map fun g => g.filename) ↔
        D ∈ (producedFragments ToLower files gen gen.Files w).map (fun x => x.2.Name)) ∧
    ((main ToLower files range { gen with Files := gen.Files.filter fun f => f.Generate } w).1.1 =
        (main ToLower files range gen w).1.1 ∧
      (main ToLower files range
          { gen with Files := gen.Files.filter fun f => f.Generate } w).1.2.genFiles =
        (main ToLower files range gen w).1.2.genFiles ∧
      (main ToLower files range { gen with Files := gen.Files.filter fun f => f.Generate } w).2 =
        (main ToLower files range gen w).2) := by
  have hagg := Aggregated_produced ToLower files gen w
  refine ⟨(main_eq ToLower files range gen w).1, ⟨_, (main_eq ToLower files range gen w).2, ?_, ?_⟩,
    ?_⟩
  · rw [List.map_map]
    have hp : ((range ((producedFragments ToLower files gen gen.Files w).foldl mergeOne
        ⟨[], []⟩).generatedFiles).map Prod.fst).Perm
        ((((producedFragments ToLower files gen gen.Files w).foldl mergeOne
        ⟨[], []⟩).generatedFiles).map Prod.fst) := (hrange _).map _
    exact hp.nodup_iff.mpr hagg.nodup
  · intro D
    rw [List.map_map, ← Aggregated_keys _ _ hagg D]
    exact ((hrange _).map Prod.fst).mem_iff
  · have hloop : main.loop ToLower files
        { ({ gen with Files := gen.Files.filter fun f => f.Generate } : Plugin) with
          SupportedFeatures := FEATURE_PROTO3_OPTIONAL }
        (gen.Files.filter fun f => f.Generate) ⟨[], []⟩ w =
        main.loop ToLower files { gen with SupportedFeatures := FEATURE_PROTO3_OPTIONAL }
          gen.Files ⟨[], []⟩ w := by
      rw [main_loop_filter]
      apply main_loop_congr
      rfl
    simp only [main, hloop]
    cases (main.loop ToLower files { gen with SupportedFeatures := FEATURE_PROTO3_OPTIONAL }
      gen.Files ⟨[], []⟩ w).1 with
    | error e => exact ⟨rfl, rfl, rfl⟩
    | ok g => exact ⟨rfl, by simp only [main_write_genFiles], rfl⟩

/-- C2 at the empty parameter string, an input file with two services flagged
for generation and one that is not: two names, each committed once. -/
theorem main_commits_each_name_once_witness :
    (∀ m : GoMap GoString GoString, (id m).Perm m) ∧
    (main strings.ToLowerASCII exampleFiles id
      ⟨[], [{ exampleFile2 with Generate := false }, exampleFile2], 0, []⟩ exampleWorld).1 =
      (none,
        ⟨[], [{ exampleFile2 with Generate := false }, exampleFile2], FEATURE_PROTO3_OPTIONAL,
          [⟨"S1.out".toList, "example.com/b".toList, "service;".toList⟩,
           ⟨"S2.out".toList, "example.com/b".toList, "service;".toList⟩]⟩) ∧
    ∃ committed : List GeneratedFile,
      (main strings.ToLowerASCII exampleFiles id
        ⟨[], [{ exampleFile2 with Generate := false }, exampleFile2], 0, []⟩
        exampleWorld).1.2.genFiles = [] ++ committed ∧
      (committed.map fun g => g.filename).Nodup ∧
      ∀ D, D ∈ (committed.map fun g => g.filename) ↔
        D ∈ (producedFragments strings.ToLowerASCII exampleFiles
          ⟨[], [{ exampleFile2 with Generate := false }, exampleFile2], 0, []⟩
          [{ exampleFile2 with Generate := false }, exampleFile2] exampleWorld).map
            (fun x => x.2.Name) :=
  ⟨fun m => List.Perm.refl m, by decide,
    (main_commits_each_name_once strings.ToLowerASCII exampleFiles id
      ⟨[], [{ exampleFile2 with Generate := false }, exampleFile2], 0, []⟩ exampleWorld
      (fun m => List.Perm.refl m)).2.1⟩

/-! ### Errors of `GenerateFile` in `main` -/

theorem main_loop_eq_loopWith {σ : Type} (ToLower : GoString → GoString)
    (files : EncoderFiles σ) (gen : Plugin) (fs : List File) (g : Generated) (w : World σ) :
    main.loop ToLower files gen fs g w =
      main.loopWith (GenerateFile ToLower files gen) fs g w := by
  induction fs generalizing g w with
  | nil => rfl
  | cons f rest ih =>
    simp only [main.loop, main.loopWith, ih]

theorem main_eq_mainWith {σ : Type} (ToLower : GoString → GoString) (files : EncoderFiles σ)
    (range : GoMap GoString GoString → List (GoString × GoString)) (gen : Plugin)
    (w : World σ) :
    main ToLower files range gen w = mainWith (GenerateFile ToLower files) range gen w := by
  simp only [main, mainWith, main_loop_eq_loopWith]

theorem main_loopWith_error {σ : Type}
    (generateFile : File → World σ → (List CodeGeneratorResponse_File × Option Error) × World σ)
    (pre post : List File) (f : File) (g0 g : Generated) (w : World σ) (e : Error)
    (hgen : f.Generate = true)
    (hpre : (main.loopWith generateFile pre g0 w).1 = .ok g)
    (herr : (generateFile f (main.loopWith generateFile pre g0 w).2).1.2 = some e) :
    main.loopWith generateFile (pre ++ f :: post) g0 w =
      (.error (Error.wrapPath f.Path e),
        (generateFile f (main.loopWith generateFile pre g0 w).2).2) := by
  induction pre generalizing g0 w with
  | nil =>
    simp only [main.loopWith] at herr
    simp [main.loopWith, hgen, herr]
  | cons p rest ih =>
    cases hG : p.Generate with
    | false =>
      simp only [main.loopWith, hG, Bool.not_false, if_true] at hpre herr
      simp only [List.cons_append, main.loopWith, hG, Bool.not_false, if_true]
      exact ih g0 w hpre herr
    | true =>
      simp only [main.loopWith, hG, Bool.not_true, Bool.false_eq_true, if_false] at hpre herr
      simp only [List.cons_append, main.loopWith, hG, Bool.not_true, Bool.false_eq_true,
        if_false]
      cases hr : (generateFile p w).1.2 with
      | some err =>
        rw [hr] at hpre
        cases hpre
      | none =>
        rw [hr] at hpre herr
        exact ih _ _ hpre herr

theorem mainWith_error {σ : Type}
    (generateFile : Plugin → File → World σ →
      (List CodeGeneratorResponse_File × Option Error) × World σ)
    (range : GoMap GoString GoString → List (GoString × GoString)) (gen : Plugin)
    (w : World σ) (pre post : List File) (f : File) (g : Generated) (e : Error)
    (hfiles : gen.Files = pre ++ f :: post) (hgen : f.Generate = true)
    (hpre : (main.loopWith
      (generateFile { gen with SupportedFeatures := FEATURE_PROTO3_OPTIONAL }) pre ⟨[], []⟩ w).1 =
        .ok g)
    (herr : (generateFile { gen with SupportedFeatures := FEATURE_PROTO3_OPTIONAL } f
      (main.loopWith (generateFile { gen with SupportedFeatures := FEATURE_PROTO3_OPTIONAL })
        pre ⟨[], []⟩ w).2).1.2 = some e) :
    (mainWith generateFile range gen w).1 =
      (some (Error.wrapPath f.Path e),
        { gen with SupportedFeatures := FEATURE_PROTO3_OPTIONAL }) := by
  have h := main_loopWith_error
    (generateFile { gen with SupportedFeatures := FEATURE_PROTO3_OPTIONAL }) pre post f ⟨[], []⟩ g w
    e hgen hpre herr
  rw [← hfiles] at h
  simp only [mainWith, h]

/-- C12, as the code has it: `GenerateFile` returns a nil error for every
request, input file and behaviour of the encoder, whose `Files()` has no error
result; and whenever the call of `GenerateFile` that `main` makes for an input
file flagged for generation returns a non-nil error, the files before it having
been processed, `main` stops there and returns that error wrapped with the path
of the offending file. -/
theorem main_wraps_error_with_path {σ : Type}
    (generateFile : Plugin → File → World σ →
      (List CodeGeneratorResponse_File × Option Error) × World σ)
    (range : GoMap GoString GoString → List (GoString × GoString)) (gen : Plugin)
    (w : World σ) (pre post : List File) (f : File) (g : Generated) (e : Error)
    (hfiles : gen.Files = pre ++ f :: post) (hgen : f.Generate = true)
    (hpre : (main.loopWith
      (generateFile { gen with SupportedFeatures := FEATURE_PROTO3_OPTIONAL }) pre ⟨[], []⟩ w).1 =
        .ok g)
    (herr : (generateFile { gen with SupportedFeatures := FEATURE_PROTO3_OPTIONAL } f
      (main.loopWith (generateFile { gen with SupportedFeatures := FEATURE_PROTO3_OPTIONAL })
        pre ⟨[], []⟩ w).2).1.2 = some e) :
    (mainWith generateFile range gen w).1.1 = some (Error.wrapPath f.Path e) ∧
    (∀ (τ : Type) (ToLower : GoString → GoString) (files : EncoderFiles τ) (file : File)
        (w1 : World τ),
      (GenerateFile ToLower files gen file w1).1.2 = none ∧
      main ToLower files range gen w1 = mainWith (GenerateFile ToLower files) range gen w1) := by
  refine ⟨?_, fun τ ToLower files file w1 =>
    ⟨GenerateFile_err ToLower files gen file w1, main_eq_mainWith ToLower files range gen w1⟩⟩
  rw [mainWith_error generateFile range gen w pre post f g e hfiles hgen hpre herr]

/-- C12 at a callee that fails for `b.proto`, the second of two input files:
`main` returns the error wrapped with `b.proto`. -/
theorem main_wraps_error_with_path_witness :
    (examplePlugin "all=true").Files = [exampleFile0] ++ exampleFile2 :: [] ∧
    exampleFile2.Generate = true ∧
    (mainWith failingGenerateFile id (examplePlugin "all=true") exampleWorld).1.1 =
      some (Error.wrapPath "b.proto".toList (Error.extensionNotFound 0)) :=
  ⟨rfl, rfl,
    (main_wraps_error_with_path failingGenerateFile id (examplePlugin "all=true") exampleWorld
      [exampleFile0] [] exampleFile2
      ⟨[("index".toList, "a;".toList)], [("index".toList, "example.com/a".toList)]⟩
      (Error.extensionNotFound 0) rfl rfl (by decide) (by decide)).1⟩

/-- C12 as stated fails at an encoder whose rendering fails: `GenerateFile`
returns a nil error all the same, and `main` returns no error. -/
theorem GenerateFile_failing_encoder_counterexample :
    (GenerateFile strings.ToLowerASCII failingFiles (examplePlugin "all=true") exampleFile0
      ⟨none, [], []⟩).2.encoder = some "render error".toList ∧
    (GenerateFile strings.ToLowerASCII failingFiles (examplePlugin "all=true") exampleFile0
      ⟨none, [], []⟩).1.2 = none ∧
    (main strings.ToLowerASCII failingFiles id (examplePlugin "all=true") ⟨none, [], []⟩).1.1 =
      none := by
  decide

/-- C13: for every sequence of input files, if the call of `GenerateFile` for
an input file flagged for generation returns an error, `main` returns an error
and commits no file: the generated files of the plugin are the ones it had,
whatever fragments were collected from the files processed before. The callee
is an argument, and `main` is the instance at `GenerateFile`. -/
theorem main_no_partial_commit {σ : Type}
    (generateFile : Plugin → File → World σ →
      (List CodeGeneratorResponse_File × Option Error) × World σ)
    (range : GoMap GoString GoString → List (GoString × GoString)) (gen : Plugin)
    (w : World σ) (pre post : List File) (f : File) (g : Generated) (e : Error)
    (hfiles : gen.Files = pre ++ f :: post) (hgen : f.Generate = true)
    (hpre : (main.loopWith
      (generateFile { gen with SupportedFeatures := FEATURE_PROTO3_OPTIONAL }) pre ⟨[], []⟩ w).1 =
        .ok g)
    (herr : (generateFile { gen with SupportedFeatures := FEATURE_PROTO3_OPTIONAL } f
      (main.loopWith (generateFile { gen with SupportedFeatures := FEATURE_PROTO3_OPTIONAL })
        pre ⟨[], []⟩ w).2).1.2 = some e) :
    (mainWith generateFile range gen w).1.1 ≠ none ∧
    (mainWith generateFile range gen w).1.2.genFiles = gen.genFiles ∧
    (∀ (τ : Type) (ToLower : GoString → GoString) (files : EncoderFiles τ) (w1 : World τ),
      main ToLower files range gen w1 = mainWith (GenerateFile ToLower files) range gen w1) := by
  rw [mainWith_error generateFile range gen w pre post f g e hfiles hgen hpre herr]
  exact ⟨by simp, rfl, fun τ ToLower files w1 => main_eq_mainWith ToLower files range gen w1⟩

/-- C13 at a callee that fails for `b.proto` after `a.proto` produced the
fragment `index`: nothing is committed. -/
theorem main_no_partial_commit_witness :
    (main.loopWith
      (failingGenerateFile
        { examplePlugin "all=true" with SupportedFeatures := FEATURE_PROTO3_OPTIONAL })
      [exampleFile0] ⟨[], []⟩ exampleWorld).1 =
      .ok ⟨[("index".toList, "a;".toList)], [("index".toList, "example.com/a".toList)]⟩ ∧
    (mainWith failingGenerateFile id (examplePlugin "all=true") exampleWorld).1.1 ≠ none ∧
    (mainWith failingGenerateFile id (examplePlugin "all=true") exampleWorld).1.2.genFiles = [] :=
  ⟨by decide,
    (main_no_partial_commit failingGenerateFile id (examplePlugin "all=true") exampleWorld
      [exampleFile0] [] exampleFile2
      ⟨[("index".toList, "a;".toList)], [("index".toList, "example.com/a".toList)]⟩
      (Error.extensionNotFound 0) rfl rfl (by decide) (by decide)).1,
    (main_no_partial_commit failingGenerateFile id (examplePlugin "all=true") exampleWorld
      [exampleFile0] [] exampleFile2
      ⟨[("index".toList, "a;".toList)], [("index".toList, "example.com/a".toList)]⟩
      (Error.extensionNotFound 0) rfl rfl (by decide) (by decide)).2.1⟩

/-- C17: for every request, input file and behaviour of the encoder, the error
result of `GenerateFile` is nil; so the loop of `main` never takes the branch
that wraps an error with the path of the file, and `main` returns no error. -/
theorem GenerateFile_never_fails {σ : Type} (ToLower : GoString → GoString)
    (files : EncoderFiles σ) (range : GoMap GoString GoString → List (GoString × GoString))
    (gen : Plugin) (w : World σ) :
    (∀ (file : File) (w1 : World σ), (GenerateFile ToLower files gen file w1).1.2 = none) ∧
    (∀ (fs : List File) (g : Generated) (w1 : World σ),
      ∃ g1, (main.loop ToLower files gen fs g w1).1 = .ok g1) ∧
    (main ToLower files range gen w).1.1 = none :=
  ⟨fun file w1 => GenerateFile_err ToLower files gen file w1,
    fun fs g w1 => ⟨_, main_loop_fst ToLower files gen fs g w1⟩,
    (main_eq ToLower files range gen w).1⟩

/-! ### Flags and directories across tokens -/

theorem Split_eq_singleton (sep : Char) (s b : GoString) (h : strings.Split s sep = [b]) :
    s = b ∧ sep ∉ b := by
  induction s generalizing b with
  | nil =>
    simp only [strings.Split, List.cons.injEq, and_true] at h
    subst h
    exact ⟨rfl, by simp⟩
  | cons c cs ih =>
    by_cases hc : c = sep
    · have hlen := Split_length sep cs
      simp only [strings.Split, hc, if_true, List.cons.injEq] at h
      rw [h.2] at hlen
      simp at hlen
    · cases hs : strings.Split cs sep with
      | nil =>
        have hlen := Split_length sep cs
        rw [hs] at hlen
        simp at hlen
      | cons p ps =>
        simp only [strings.Split, hc, if_false, hs, List.cons.injEq] at h
        obtain ⟨h1, h2⟩ := h
        subst h2
        obtain ⟨e1, e2⟩ := ih p hs
        subst h1
        subst e1
        refine ⟨rfl, ?_⟩
        intro hmem
        rcases List.mem_cons.mp hmem with hm | hm
        · exact hc hm.symm
        · exact e2 hm

theorem Split_eq_pair (sep : Char) (s a b : GoString) (h : strings.Split s sep = [a, b]) :
    s = a ++ sep :: b ∧ sep ∉ a ∧ sep ∉ b := by
  induction s generalizing a with
  | nil => simp [strings.Split] at h
  | cons c cs ih =>
    by_cases hc : c = sep
    · simp only [strings.Split, hc, if_true, List.cons.injEq] at h
      obtain ⟨h1, h2⟩ := h
      obtain ⟨e1, e2⟩ := Split_eq_singleton sep cs b h2
      subst h1
      subst e1
      subst hc
      exact ⟨rfl, by simp, e2⟩
    · cases hs : strings.Split cs sep with
      | nil =>
        have hlen := Split_length sep cs
        rw [hs] at hlen
        simp at hlen
      | cons p ps =>
        simp only [strings.Split, hc, if_false, hs, List.cons.injEq] at h
        obtain ⟨h1, h2⟩ := h
        subst h2
        obtain ⟨e1, e2, e3⟩ := ih p hs
        subst h1
        refine ⟨by rw [e1]; rfl, ?_, e3⟩
        intro hmem
        rcases List.mem_cons.mp hmem with hm | hm
        · exact hc hm.symm
        · exact e2 hm

/-- The loop body never clears a flag. -/
theorem ParseParams_body_mono (ToLower : GoString → GoString)
    (acc : Parameters × List LogEntry) (tok : GoString) :
    (acc.1.SinglePackageMode = true → (ParseParams.body ToLower acc tok).1.SinglePackageMode = true) ∧
    (acc.1.Debug = true → (ParseParams.body ToLower acc tok).1.Debug = true) ∧
    (acc.1.All = true → (ParseParams.body ToLower acc tok).1.All = true) ∧
    (acc.1.FileMode = true → (ParseParams.body ToLower acc tok).1.FileMode = true) := by
  simp only [ParseParams.body]
  split
  · repeat' split
    all_goals simp
  · simp

theorem ParseParams_foldl_mono (ToLower : GoString → GoString) (toks : List GoString)
    (acc : Parameters × List LogEntry) :
    (acc.1.SinglePackageMode = true →
      (toks.foldl (ParseParams.body ToLower) acc).1.SinglePackageMode = true) ∧
    (acc.1.Debug = true → (toks.foldl (ParseParams.body ToLower) acc).1.Debug = true) ∧
    (acc.1.All = true → (toks.foldl (ParseParams.body ToLower) acc).1.All = true) ∧
    (acc.1.FileMode = true → (toks.foldl (ParseParams.body ToLower) acc).1.FileMode = true) := by
  induction toks generalizing acc with
  | nil => exact ⟨id, id, id, id⟩
  | cons t ts ih =>
    have hb := ParseParams_body_mono ToLower acc t
    have hi := ih (ParseParams.body ToLower acc t)
    simp only [List.foldl_cons]
    exact ⟨fun h => hi.1 (hb.1 h), fun h => hi.2.1 (hb.2.1 h), fun h => hi.2.2.1 (hb.2.2.1 h),
      fun h => hi.2.2.2 (hb.2.2.2 h)⟩

/-- A token `key=v` with a boolean key and a value that lower-cases to `true`
or `t` sets the flag of the key. -/
theorem ParseParams_body_sets (ToLower : GoString → GoString)
    (acc : Parameters × List LogEntry) (v : GoString) (he : '=' ∉ v)
    (h : ToLower v = "true".toList ∨ ToLower v = "t".toList) :
    (ParseParams.body ToLower acc ("single-package-mode".toList ++ '=' :: v)).1.SinglePackageMode =
      true ∧
    (ParseParams.body ToLower acc ("debug".toList ++ '=' :: v)).1.Debug = true ∧
    (ParseParams.body ToLower acc ("all".toList ++ '=' :: v)).1.All = true ∧
    (ParseParams.body ToLower acc ("file-mode".toList ++ '=' :: v)).1.FileMode = true := by
  have s1 := Split_key_value "single-package-mode".toList v (by decide) he
  have s2 := Split_key_value "debug".toList v (by decide) he
  have s3 := Split_key_value "all".toList v (by decide) he
  have s4 := Split_key_value "file-mode".toList v (by decide) he
  simp +decide only [ParseParams.body, s1, s2, s3, s4, h, boolTrue, if_true, if_false, and_self]

/-- A token `template_dir=v` or `destination_dir=v` sets the directory. -/
theorem ParseParams_body_sets_dir (ToLower : GoString → GoString)
    (acc : Parameters × List LogEntry) (v : GoString) (he : '=' ∉ v) :
    (ParseParams.body ToLower acc ("template_dir".toList ++ '=' :: v)).1.TemplateDir = v ∧
    (ParseParams.body ToLower acc ("destination_dir".toList ++ '=' :: v)).1.DestinationDir = v := by
  have s1 := Split_key_value "template_dir".toList v (by decide) he
  have s2 := Split_key_value "destination_dir".toList v (by decide) he
  simp +decide only [ParseParams.body, s1, s2, if_true, if_false, and_self]

/-- A token that is not `template_dir=v` leaves `TemplateDir` as it is, and
likewise for `destination_dir` and `DestinationDir`. -/
theorem ParseParams_body_keeps_dir (ToLower : GoString → GoString)
    (acc : Parameters × List LogEntry) (tok : GoString) :
    ((∀ v, '=' ∉ v → tok ≠ "template_dir".toList ++ '=' :: v) →
      (ParseParams.body ToLower acc tok).1.TemplateDir = acc.1.TemplateDir) ∧
    ((∀ v, '=' ∉ v → tok ≠ "destination_dir".toList ++ '=' :: v) →
      (ParseParams.body ToLower acc tok).1.DestinationDir = acc.1.DestinationDir) := by
  simp only [ParseParams.body]
  split
  · rename_i key value heq
    obtain ⟨e1, -, e3⟩ := Split_eq_pair '=' tok key value heq
    constructor
    · intro h
      have h1 : ¬ key = "template_dir".toList := fun hk => h value e3 (by rw [e1, hk])
      simp only [h1, if_false]
      repeat' split
      all_goals rfl
    · intro h
      have h1 : ¬ key = "destination_dir".toList := fun hk => h value e3 (by rw [e1, hk])
      simp only [h1, if_false]
      repeat' split
      all_goals rfl
  · exact ⟨fun _ => rfl, fun _ => rfl⟩

theorem ParseParams_foldl_keeps_dir (ToLower : GoString → GoString) (toks : List GoString)
    (acc : Parameters × List LogEntry) :
    ((∀ t ∈ toks, ∀ v, '=' ∉ v → t ≠ "template_dir".toList ++ '=' :: v) →
      (toks.foldl (ParseParams.body ToLower) acc).1.TemplateDir = acc.1.TemplateDir) ∧
    ((∀ t ∈ toks, ∀ v, '=' ∉ v → t ≠ "destination_dir".toList ++ '=' :: v) →
      (toks.foldl (ParseParams.body ToLower) acc).1.DestinationDir = acc.1.DestinationDir) := by
  induction toks generalizing acc with
  | nil => exact ⟨fun _ => rfl, fun _ => rfl⟩
  | cons t ts ih =>
    have hb := ParseParams_body_keeps_dir ToLower acc t
    have hi := ih (ParseParams.body ToLower acc t)
    simp only [List.foldl_cons]
    constructor
    · intro h
      rw [hi.1 (fun x hx => h x (List.mem_cons_of_mem _ hx)), hb.1 (h t (List.mem_cons_self _ _))]
    · intro h
      rw [hi.2 (fun x hx => h x (List.mem_cons_of_mem _ hx)), hb.2 (h t (List.mem_cons_self _ _))]

theorem ParseParams_eq_foldl (ToLower : GoString → GoString) (p : GoString) (tok : GoString)
    (hmem : tok ∈ strings.Split p ',') (hne : tok ≠ []) :
    ParseParams ToLower p = (strings.Split p ',').foldl (ParseParams.body ToLower) ({}, []) := by
  have hp : p ≠ [] := by
    rintro rfl
    simp only [strings.Split, List.mem_singleton] at hmem
    exact hne hmem
  simp [ParseParams, hp]

/-- C16: for every parameter string, with its tokens the pieces between the
commas: if some token is `key=v` for a boolean key, with exactly one `=` and a
`v` that lower-cases to `true` or `t`, the flag of the key is true in the
result, whatever the later tokens are; and `TemplateDir` (`DestinationDir`) is
the value of the last token `template_dir=v` (`destination_dir=v`) with exactly
one `=`. -/
theorem ParseParams_flags_monotone_dirs_last (ToLower : GoString → GoString) (p : GoString) :
    (∀ v, '=' ∉ v → (ToLower v = "true".toList ∨ ToLower v = "t".toList) →
      ("single-package-mode".toList ++ '=' :: v ∈ strings.Split p ',' →
        (ParseParams ToLower p).1.SinglePackageMode = true) ∧
      ("debug".toList ++ '=' :: v ∈ strings.Split p ',' → (ParseParams ToLower p).1.Debug = true) ∧
      ("all".toList ++ '=' :: v ∈ strings.Split p ',' → (ParseParams ToLower p).1.All = true) ∧
      ("file-mode".toList ++ '=' :: v ∈ strings.Split p ',' →
        (ParseParams ToLower p).1.FileMode = true)) ∧
    (∀ pre post v, '=' ∉ v →
      strings.Split p ',' = pre ++ ("template_dir".toList ++ '=' :: v) :: post →
      (∀ t ∈ post, ∀ v2, '=' ∉ v2 → t ≠ "template_dir".toList ++ '=' :: v2) →
      (ParseParams ToLower p).1.TemplateDir = v) ∧
    (∀ pre post v, '=' ∉ v →
      strings.Split p ',' = pre ++ ("destination_dir".toList ++ '=' :: v) :: post →
      (∀ t ∈ post, ∀ v2, '=' ∉ v2 → t ≠ "destination_dir".toList ++ '=' :: v2) →
      (ParseParams ToLower p).1.DestinationDir = v) := by
  refine ⟨?_, ?_, ?_⟩
  · intro v he h
    refine ⟨?_, ?_, ?_, ?_⟩ <;> intro hmem <;>
      rw [ParseParams_eq_foldl ToLower p _ hmem (by simp)] <;>
      obtain ⟨a, b, hab⟩ := List.append_of_mem hmem <;>
      rw [hab, List.foldl_append, List.foldl_cons]
    · exact (ParseParams_foldl_mono ToLower b _).1 (ParseParams_body_sets ToLower _ v he h).1
    · exact (ParseParams_foldl_mono ToLower b _).2.1 (ParseParams_body_sets ToLower _ v he h).2.1
    · exact (ParseParams_foldl_mono ToLower b _).2.2.1
        (ParseParams_body_sets ToLower _ v he h).2.2.1
    · exact (ParseParams_foldl_mono ToLower b _).2.2.2
        (ParseParams_body_sets ToLower _ v he h).2.2.2
  · intro pre post v he hsplit hpost
    rw [ParseParams_eq_foldl ToLower p ("template_dir".toList ++ '=' :: v)
      (by rw [hsplit]; simp) (by simp), hsplit, List.foldl_append, List.foldl_cons,
      (ParseParams_foldl_keeps_dir ToLower post _).1 hpost]
    exact (ParseParams_body_sets_dir ToLower _ v he).1
  · intro pre post v he hsplit hpost
    rw [ParseParams_eq_foldl ToLower p ("destination_dir".toList ++ '=' :: v)
      (by rw [hsplit]; simp) (by simp), hsplit, List.foldl_append, List.foldl_cons,
      (ParseParams_foldl_keeps_dir ToLower post _).2 hpost]
    exact (ParseParams_body_sets_dir ToLower _ v he).2

/-- C16 at `debug=true,debug=false` and at
`template_dir=a,debug=f,template_dir=b`. -/
theorem ParseParams_flags_monotone_dirs_last_witness :
    (ParseParams strings.ToLowerASCII "debug=true,debug=false".toList).1.Debug = true ∧
    (ParseParams strings.ToLowerASCII "template_dir=a,debug=f,template_dir=b".toList).1.TemplateDir =
      "b".toList :=
  ⟨((ParseParams_flags_monotone_dirs_last strings.ToLowerASCII
      "debug=true,debug=false".toList).1 "true".toList (by decide) (Or.inl (by decide))).2.1
      (by decide),
    (ParseParams_flags_monotone_dirs_last strings.ToLowerASCII
      "template_dir=a,debug=f,template_dir=b".toList).2.1
      ["template_dir=a".toList, "debug=f".toList] [] "b".toList (by decide) (by decide)
      (by simp)⟩

/-! ### Determinism, independence of `single-package-mode`, diagnostics, options -/

/-- C14: for every parameter string `p`, a call `ParseParams(p)` returns the
same parameters and logs the same entries in every state of the world, so
after any earlier call; two calls, one after the other, whatever is called in
between, return equal parameters and log the same entries, and change nothing
else. -/
theorem ParseParams_deterministic {σ : Type} (ToLower : GoString → GoString) (p : GoString) :
    ∃ (params : Parameters) (diags : List LogEntry),
      (∀ w : World σ,
        (ParseParams.logged ToLower p w).1 = params ∧
        (ParseParams.logged ToLower p w).2.stderr = w.stderr ++ diags ∧
        (ParseParams.logged ToLower p w).2.encoder = w.encoder ∧
        (ParseParams.logged ToLower p w).2.invocations = w.invocations) ∧
      (∀ (q : GoString) (w : World σ),
        (ParseParams.logged ToLower p
          (ParseParams.logged ToLower q (ParseParams.logged ToLower p w).2).2).1 =
          (ParseParams.logged ToLower p w).1) :=
  ⟨(ParseParams ToLower p).1, (ParseParams ToLower p).2,
    fun _ => ⟨rfl, rfl, rfl, rfl⟩, fun _ _ => rfl⟩

theorem GenerateFile_services_congr {σ : Type} (files : EncoderFiles σ)
    (params1 params2 : Parameters) (fd : FileDescriptorProto)
    (hT : params1.TemplateDir = params2.TemplateDir) (hDebug : params1.Debug = params2.Debug)
    (hD : params1.DestinationDir = params2.DestinationDir)
    (services : List ServiceDescriptorProto) (acc : List CodeGeneratorResponse_File)
    (w1 w2 : World σ) (he : w1.encoder = w2.encoder) (hi : w1.invocations = w2.invocations) :
    (GenerateFile.services files params1 fd services acc w1).1 =
      (GenerateFile.services files params2 fd services acc w2).1 ∧
    (GenerateFile.services files params1 fd services acc w1).2.encoder =
      (GenerateFile.services files params2 fd services acc w2).2.encoder ∧
    (GenerateFile.services files params1 fd services acc w1).2.invocations =
      (GenerateFile.services files params2 fd services acc w2).2.invocations := by
  induction services generalizing acc w1 w2 with
  | nil => exact ⟨rfl, he, hi⟩
  | cons service rest ih =>
    simp only [GenerateFile.services, Encoder.Files, hT, hDebug, hD, he, hi]
    exact ih _ _ _ rfl rfl

/-- C18: for any two parameter strings whose parsed parameters differ at most
in `SinglePackageMode`, and every input file, `GenerateFile` returns the same
files and the same error, makes the same encoder invocations with the same
arguments, and leaves the encoder in the same state. -/
theorem GenerateFile_ignores_single_package_mode {σ : Type} (ToLower : GoString → GoString)
    (files : EncoderFiles σ) (gen1 gen2 : Plugin) (file : File) (w : World σ)
    (h : { (ParseParams ToLower gen1.Parameter).1 with
        SinglePackageMode := (ParseParams ToLower gen2.Parameter).1.SinglePackageMode } =
      (ParseParams ToLower gen2.Parameter).1) :
    (GenerateFile ToLower files gen1 file w).1 = (GenerateFile ToLower files gen2 file w).1 ∧
    (GenerateFile ToLower files gen1 file w).2.invocations =
      (GenerateFile ToLower files gen2 file w).2.invocations ∧
    (GenerateFile ToLower files gen1 file w).2.encoder =
      (GenerateFile ToLower files gen2 file w).2.encoder := by
  have hT : (ParseParams ToLower gen1.Parameter).1.TemplateDir =
      (ParseParams ToLower gen2.Parameter).1.TemplateDir := by
    have h1 := congrArg Parameters.TemplateDir h
    exact h1
  have hD : (ParseParams ToLower gen1.Parameter).1.DestinationDir =
      (ParseParams ToLower gen2.Parameter).1.DestinationDir := by
    have h1 := congrArg Parameters.DestinationDir h
    exact h1
  have hDebug : (ParseParams ToLower gen1.Parameter).1.Debug =
      (ParseParams ToLower gen2.Parameter).1.Debug := by
    have h1 := congrArg Parameters.Debug h
    exact h1
  have hAll : (ParseParams ToLower gen1.Parameter).1.All =
      (ParseParams ToLower gen2.Parameter).1.All := by
    have h1 := congrArg Parameters.All h
    exact h1
  have hFM : (ParseParams ToLower gen1.Parameter).1.FileMode =
      (ParseParams ToLower gen2.Parameter).1.FileMode := by
    have h1 := congrArg Parameters.FileMode h
    exact h1
  have hs := GenerateFile_services_congr files (ParseParams ToLower gen1.Parameter).1
    (ParseParams ToLower gen2.Parameter).1 file.Proto hT hDebug hD file.Proto.Service []
    { w with stderr := w.stderr ++ (ParseParams ToLower gen1.Parameter).2 }
    { w with stderr := w.stderr ++ (ParseParams ToLower gen2.Parameter).2 } rfl rfl
  simp only [GenerateFile, hT, hD, hDebug, hAll, hFM, Encoder.Files]
  split
  · exact ⟨rfl, rfl, rfl⟩
  · split
    · split
      · exact ⟨rfl, rfl, rfl⟩
      · exact ⟨rfl, rfl, rfl⟩
    · exact ⟨by rw [hs.1], hs.2.2, hs.2.1⟩

/-- C18 at `single-package-mode=true,debug=true` and `debug=true`. -/
theorem GenerateFile_ignores_single_package_mode_witness :
    (ParseParams strings.ToLowerASCII "single-package-mode=true,debug=true".toList).1 =
      { SinglePackageMode := true, Debug := true } ∧
    (ParseParams strings.ToLowerASCII "debug=true".toList).1 = { Debug := true } ∧
    (GenerateFile strings.ToLowerASCII exampleFiles
        (examplePlugin "single-package-mode=true,debug=true") exampleFile2 exampleWorld).1 =
      (GenerateFile strings.ToLowerASCII exampleFiles (examplePlugin "debug=true") exampleFile2
        exampleWorld).1 ∧
    (GenerateFile strings.ToLowerASCII exampleFiles
        (examplePlugin "single-package-mode=true,debug=true") exampleFile2
        exampleWorld).2.invocations =
      (GenerateFile strings.ToLowerASCII exampleFiles (examplePlugin "debug=true") exampleFile2
        exampleWorld).2.invocations ∧
    (GenerateFile strings.ToLowerASCII exampleFiles
        (examplePlugin "single-package-mode=true,debug=true") exampleFile2 exampleWorld).2.encoder =
      (GenerateFile strings.ToLowerASCII exampleFiles (examplePlugin "debug=true") exampleFile2
        exampleWorld).2.encoder :=
  ⟨by decide, by decide,
    GenerateFile_ignores_single_package_mode strings.ToLowerASCII exampleFiles
      (examplePlugin "single-package-mode=true,debug=true") (examplePlugin "debug=true")
      exampleFile2 exampleWorld (by decide)⟩

/-- C19 at `all=maybe`: the entry `ParseParams` logs for the key `all` names
the key `debug`; the entries for the three other boolean keys name their own
key. Each has the value as its argument. -/
theorem ParseParams_all_diagnostic_names_debug :
    ParseParams strings.ToLowerASCII "all=maybe".toList =
      ({}, [⟨"Err: invalid value for debug: %q", "maybe".toList⟩]) ∧
    ParseParams strings.ToLowerASCII "debug=maybe".toList =
      ({}, [⟨"Err: invalid value for debug: %q", "maybe".toList⟩]) ∧
    ParseParams strings.ToLowerASCII "file-mode=maybe".toList =
      ({}, [⟨"Err: invalid value for file-mode: %q", "maybe".toList⟩]) ∧
    ParseParams strings.ToLowerASCII "single-package-mode=maybe".toList =
      ({}, [⟨"Err: invalid value for single-package-mode: %q", "maybe".toList⟩]) := by
  decide

/-- C15 at number 50001 and `FileOptions`, against which nothing is
registered: `getExtension` returns the error "extension 50001 not found", not a
value. -/
theorem getExtension_unregistered_is_error :
    ¬ exampleRuntime.registered FileOptions.FullName 50001 ∧
    getExtension exampleRuntime (FileOptions.asMessage ⟨[(50001, GoValue.string "v".toList)]⟩)
      GoType.ptrFileOptions 50001 GoType.ptrString = .error (Error.extensionNotFound 50001) := by
  decide

theorem stringMethodOptionsExtension_of_ptr (rt : Runtime) (n : Int)
    (d : MethodDescriptorProto) (o : MethodOptions) (s : GoString) (ho : d.Options = some o)
    (h : getExtension rt o.asMessage GoType.ptrMethodOptions n GoType.ptrString =
      .ok (GoValue.ptrString (some s))) :
    stringMethodOptionsExtension rt n (some d) = .ok s := by
  simp [stringMethodOptionsExtension, ho, h]

/-- C11 at a method whose options carry the registered extension 50001: with
the value `"v"`, which `proto.GetExtension` hands over as a Go `string`, the
string accessor returns `""`; with the value `true`, handed over as a Go
`bool`, the bool accessor returns `false`. -/
theorem typed_accessors_lose_value :
    exampleRuntime.registered MethodOptions.FullName 50001 ∧
    getExtension exampleRuntime
      (MethodOptions.asMessage ⟨[(50001, GoValue.string "v".toList)]⟩)
      GoType.ptrMethodOptions 50001 GoType.ptrString = .ok (GoValue.string "v".toList) ∧
    stringMethodOptionsExtension exampleRuntime 50001
      (some ⟨"Get".toList, some ⟨[(50001, GoValue.string "v".toList)]⟩⟩) = .ok [] ∧
    getExtension exampleRuntime (MethodOptions.asMessage ⟨[(50001, GoValue.bool true)]⟩)
      GoType.ptrMethodOptions 50001 GoType.ptrBool = .ok (GoValue.bool true) ∧
    boolMethodOptionsExtension exampleRuntime 50001
      (some ⟨"Get".toList, some ⟨[(50001, GoValue.bool true)]⟩⟩) = .ok false := by
  decide

end Pgg
